import Mathlib

/-!
Verification of the embind engine of this repository (host side of
Emscripten's embind ABI for a WebAssembly runtime).

The Go sources are shallowly embedded: Go maps become association lists,
`uint64` wire words become `Nat`, `int32` values become `Int` (with explicit
encoding through `encodeI32` where the code converts), Go functions that
mutate the engine in place and return an `error` become functions returning
`EngineState × Option Err` (partial mutations persist on error, as in Go),
and the callback closures stored in `awaitingDependencies` are
defunctionalized into references to pending-resolution records, mirroring
exactly the closures created in `whenDependentTypesAreResolved`.
-/

namespace Embind

/-- Association-list lookup, modelling Go map read (`m[k]`, with the `ok`
bit encoded by `Option`). -/
def lookupA {K V : Type} [DecidableEq K] : List (K × V) → K → Option V
  | [], _ => none
  | (k, v) :: rest, key => if k = key then some v else lookupA rest key

/-- Association-list insert/overwrite, modelling Go map write (`m[k] = v`). -/
def insertA {K V : Type} [DecidableEq K] : List (K × V) → K → V → List (K × V)
  | [], key, val => [(key, val)]
  | (k, v) :: rest, key, val =>
    if k = key then (key, val) :: rest else (k, v) :: insertA rest key val

/-- Association-list removal, modelling Go `delete(m, k)`. -/
def eraseA {K V : Type} [DecidableEq K] : List (K × V) → K → List (K × V)
  | [], _ => []
  | (k, v) :: rest, key =>
    if k = key then eraseA rest key else (k, v) :: eraseA rest key

/-- A host (Go) value crossing the embind boundary; the Go side types these
as `any`.  `arr` is a Go `[]any` value appearing as a single `any` (this is
how a variadic argument slice passed without `...` arrives). -/
inductive Value where
  | null
  | undef
  | bool (b : Bool)
  | num (n : Int)
  | str (s : String)
  | arr (elems : List Value)
  deriving Repr

/-- A scheduled destructor, translating the Go struct `destructorFunc`
(`function` is the name of the guest export to call, `args` its wire-word
arguments). -/
structure Dtor where
  function : String
  args : List Nat
  deriving Repr, DecidableEq

/-- Structured embedding of the Go `error` values produced by the engine
(each constructor corresponds to one `fmt.Errorf` site or panic site). -/
inductive Err where
  | outOfFuel
  | msg (s : String)
  | symbolNotFound (name : String)
  | callError (name : String) (inner : Err)
  | invalidArgCount (humanName : String) (got : Nat) (possibleOverloads : List String)
  | wrongArgCount (humanName : String) (got expected : Nat)
  | unboundTypes (message : String) (typeNames : List String)
  | zeroTypeId (name : String)
  | registeredTwice (name : String)
  | cannotRegisterPublicNameTwice (name : String)
  | replaceNonexistent (name : String)
  | mismatchedTypeConverterCount
  | encodeClassParam (inner : Err)
  | encodeArg (i : Nat) (typeName : String) (inner : Err)
  | decodeReturn (typeName : String) (inner : Err)
  | nilDestructorList
  | nilSymbol (name : String)
  | unknownEnumType (valueName typeName : String)
  | enumValueAlreadyRegistered (valueName enumName : String)
  | noResult
  deriving Repr, DecidableEq

/-- `api.EncodeI32`: an `int32` placed into a `uint64` wire word as its
unsigned 32-bit pattern (`uint64(uint32(v))`). -/
def encodeI32 (v : Int) : Nat := (v % ((2 : Int) ^ 32)).toNat

/-- `api.DecodeI32`: the low 32 bits of a wire word read back as a signed
`int32` (`int32(uint32(v))`). -/
def decodeI32 (w : Nat) : Int :=
  let m : Nat := w % 2 ^ 32
  if m < 2 ^ 31 then (m : Int) else (m : Int) - 2 ^ 32

/-- `api.DecodeU32`: the low 32 bits of a wire word (`uint32(v)`). -/
def decodeU32 (w : Nat) : Nat := w % 2 ^ 32

/-! ## The boolean wire codec (`bool.go`, `boolType`) -/

/-- The Go struct `boolType` of `bool.go`: the registered name together with
the `size`, `trueVal` and `falseVal` fields recorded at registration. -/
structure BoolType where
  name : String
  size : Int
  trueVal : Int
  falseVal : Int
  deriving Repr, DecidableEq

/-- `boolType.FromWireType`: the decoder returns `value > 0` on the `uint64`
wire word (the comment in the source notes the ABI ambiguously sends either
0/1 or the registered sentinels, so any non-zero word decodes to true). -/
def BoolType.fromWireType (_bt : BoolType) (value : Nat) : Value :=
  .bool (decide (0 < value))

/-- `boolType.ToWireType`: a non-`bool` host value is an error; `true`
encodes to the registered `trueVal` sentinel and `false` to `falseVal`,
both placed on the wire through `api.EncodeI32`. -/
def BoolType.toWireType (bt : BoolType) (o : Value) : Except Err Nat :=
  match o with
  | .bool b => if b then .ok (encodeI32 bt.trueVal) else .ok (encodeI32 bt.falseVal)
  | _ => .error (.msg "value must be of type bool")


/-! ## The type registry and dependency resolver (`registerType`,
`whenDependentTypesAreResolved`)

The Go struct `registeredType` stores wire-codec closures; they are kept as
Lean function fields.  `toWireType` in Go receives a `*[]*destructorFunc`
and appends to it; the embedding returns the appended destructors instead,
which is the only effect it has through that pointer. -/

structure RType where
  rawType : Int
  name : String
  isVoid : Bool
  destructorFunction : Option (Nat → Except Err Unit)
  fromWireType : Nat → Except Err Value
  toWireType : Value → Except Err (Nat × List Dtor)
  argPackAdvance : Int
  readValueFromPointer : Nat → Except Err Value

/-- Go struct `registerTypeOptions`. -/
structure RegisterTypeOptions where
  ignoreDuplicateRegistrations : Bool
  deriving Repr, DecidableEq

/-- The data captured by `craftInvokerFunction` and consulted by the
host-callable it returns: `argTypes[0]` is the return type, `argTypes[1]`
the `this` type (or `none`), `argTypes[2:]` the parameters;
`invokerBehavior` is the C++-side invoker reached through the indirect
call handle (external to the engine, hence a behavior parameter). -/
structure InvokerSpec where
  humanName : String
  argTypes : List (Option RType)
  hasClassType : Bool
  invokerBehavior : List Nat → Except Err (List Nat)
  cppTargetFunc : Int

/-- Defunctionalized `publicSymbol.fn` values: the unbound-types stub
installed by `_embind_register_function`, a crafted invoker, the overload
resolver injected by `ensureOverloadTable`, or an opaque host function. -/
inductive FnCode where
  | unboundStub (message : String) (types : List Int)
  | invoker (spec : InvokerSpec)
  | dispatcher (methodName humanName : String)
  | ext (behavior : Value → List Value → Except Err (Option Value))

/-- Go struct `publicSymbol` (recursive through the overload table; a
`none` table is Go's nil map). -/
inductive PublicSymbol where
  | mk (argCount : Int) (overloadTable : Option (List (Int × PublicSymbol))) (fn : FnCode)

def PublicSymbol.argCount : PublicSymbol → Int
  | .mk a _ _ => a

def PublicSymbol.overloadTable : PublicSymbol → Option (List (Int × PublicSymbol))
  | .mk _ t _ => t

def PublicSymbol.fn : PublicSymbol → FnCode
  | .mk _ _ f => f

/-- A defunctionalized awaiting-dependency callback.  The closure appended
to `awaitingDependencies[dt]` in `whenDependentTypesAreResolved` captures
the surrounding call's shared cells and its loop index `myI`; it is
represented by the index `pid` of that call's pending record plus `myI`. -/
structure Callback where
  pid : Nat
  idx : Nat
  deriving Repr, DecidableEq

/-- The shared state of one `whenDependentTypesAreResolved` call: its
`myTypes` and `dependentTypes` arguments, the `typeConverters` array, the
`registered` counter, the final `len(unregisteredTypes)`, and the
`getTypeConverters` closure.  `invoked` and `allInvocationsAllReg`
instrument how often `getTypeConverters` ran and whether every dependency
was registered at each run. -/
structure Pending where
  myTypes : List Int
  deps : List Int
  conv : List (Option RType)
  registered : Nat
  unregCount : Nat
  produce : List (Option RType) → Except Err (List RType)
  invoked : Nat
  allInvocationsAllReg : Bool

/-- The Go struct `engine`: the fields read or written by the functions
under verification. -/
structure EngineState where
  publicSymbols : List (String × PublicSymbol)
  registeredTypes : List (Int × RType)
  typeDependencies : List (Int × List Int)
  awaitingDependencies : List (Int × List Callback)
  pendings : List Pending

/-- `CreateEngine()`: the empty engine. -/
def emptyEngine : EngineState := ⟨[], [], [], [], []⟩

mutual

/-- `engine.registerType`: reject raw type 0; on a duplicate honour
`ignoreDuplicateRegistrations` or fail; otherwise store the type, drop its
`typeDependencies` entry, and drain and run its awaiting callbacks in
order.  Fuel bounds the callback cascade; exhaustion reports
`Err.outOfFuel` (the Go code recurses unboundedly). -/
def registerTypeF : Nat → EngineState → Int → RType → Option RegisterTypeOptions →
    EngineState × Option Err
  | 0, st, _, _, _ => (st, some .outOfFuel)
  | fuel + 1, st, rawType, t, options =>
    if rawType = 0 then (st, some (.zeroTypeId t.name))
    else
      match lookupA st.registeredTypes rawType with
      | some _ =>
        match options with
        | some o =>
          if o.ignoreDuplicateRegistrations then (st, none)
          else (st, some (.registeredTwice t.name))
        | none => (st, some (.registeredTwice t.name))
      | none =>
        let st1 : EngineState :=
          { st with registeredTypes := insertA st.registeredTypes rawType t,
                    typeDependencies := eraseA st.typeDependencies rawType }
        match lookupA st1.awaitingDependencies rawType with
        | none => (st1, none)
        | some cbs =>
          let st2 : EngineState :=
            { st1 with awaitingDependencies := eraseA st1.awaitingDependencies rawType }
          runCallbacks fuel st2 cbs

/-- The `for i := range callbacks` loop of `registerType`: run each drained
callback in order, stopping at the first error. -/
def runCallbacks : Nat → EngineState → List Callback → EngineState × Option Err
  | _, st, [] => (st, none)
  | 0, st, _ :: _ => (st, some .outOfFuel)
  | fuel + 1, st, cb :: rest =>
    match fireCallback fuel st cb with
    | (st', none) => runCallbacks fuel st' rest
    | (st', some e) => (st', some e)

/-- One awaiting-dependency callback body: write
`typeConverters[myI] = e.registeredTypes[dt]`, increment `registered`, and
when the count reaches `len(unregisteredTypes)` run `onComplete`. -/
def fireCallback : Nat → EngineState → Callback → EngineState × Option Err
  | 0, st, _ => (st, some .outOfFuel)
  | fuel + 1, st, cb =>
    match st.pendings[cb.pid]? with
    | none => (st, none)
    | some p =>
      match p.deps[cb.idx]? with
      | none => (st, none)
      | some dep =>
        let p1 : Pending :=
          { p with conv := p.conv.set cb.idx (lookupA st.registeredTypes dep),
                   registered := p.registered + 1 }
        let st1 : EngineState := { st with pendings := st.pendings.set cb.pid p1 }
        if p1.registered = p1.unregCount then completePending fuel st1 cb.pid
        else (st1, none)

/-- `onComplete`: call `getTypeConverters` on the converter array, check the
returned count against `myTypes`, and register each produced type at the
corresponding target id.  The instrumentation counts the invocation and
records whether every dependency id was registered at this moment. -/
def completePending : Nat → EngineState → Nat → EngineState × Option Err
  | 0, st, _ => (st, some .outOfFuel)
  | fuel + 1, st, pid =>
    match st.pendings[pid]? with
    | none => (st, none)
    | some p =>
      let allReg := p.deps.all fun d => (lookupA st.registeredTypes d).isSome
      let p' : Pending :=
        { p with invoked := p.invoked + 1,
                 allInvocationsAllReg := p.allInvocationsAllReg && allReg }
      let st1 : EngineState := { st with pendings := st.pendings.set pid p' }
      match p'.produce p'.conv with
      | .error e => (st1, some e)
      | .ok myConverters =>
        if myConverters.length ≠ p'.myTypes.length then
          (st1, some .mismatchedTypeConverterCount)
        else registerEach fuel st1 (p'.myTypes.zip myConverters)

/-- The `for i := range myTypes` loop of `onComplete`: register each
produced type, stopping at the first error. -/
def registerEach : Nat → EngineState → List (Int × RType) → EngineState × Option Err
  | _, st, [] => (st, none)
  | 0, st, _ :: _ => (st, some .outOfFuel)
  | fuel + 1, st, (r, t) :: rest =>
    match registerTypeF fuel st r t none with
    | (st', none) => registerEach fuel st' rest
    | (st', some e) => (st', some e)

end

/-- The `for i := range dependentTypes` loop of
`whenDependentTypesAreResolved`: build the `typeConverters` array (entries
for already-registered dependencies filled immediately), count the
unregistered dependencies, and append one callback per unregistered
dependency to its awaiting list, in loop order. -/
def wdtarScan (regTypes : List (Int × RType)) (pid : Nat) :
    List Int → Nat → List (Int × List Callback) →
    List (Option RType) × Nat × List (Int × List Callback)
  | [], _, aw => ([], 0, aw)
  | dt :: rest, i, aw =>
    match lookupA regTypes dt with
    | some t =>
      let r := wdtarScan regTypes pid rest (i + 1) aw
      (some t :: r.1, r.2.1, r.2.2)
    | none =>
      let aw1 := insertA aw dt ((lookupA aw dt).getD [] ++ [⟨pid, i⟩])
      let r := wdtarScan regTypes pid rest (i + 1) aw1
      (none :: r.1, r.2.1 + 1, r.2.2)

/-- `engine.whenDependentTypesAreResolved`: record the dependency lists of
every target id, scan the dependencies, create the pending record, and —
when no dependency is unregistered — run `onComplete` immediately. -/
def whenDependentTypesAreResolvedF (fuel : Nat) (st : EngineState)
    (myTypes dependentTypes : List Int)
    (getTypeConverters : List (Option RType) → Except Err (List RType)) :
    EngineState × Option Err :=
  let td := myTypes.foldl (fun m t => insertA m t dependentTypes) st.typeDependencies
  let pid := st.pendings.length
  let scan := wdtarScan st.registeredTypes pid dependentTypes 0 st.awaitingDependencies
  let p : Pending :=
    { myTypes := myTypes, deps := dependentTypes, conv := scan.1,
      registered := 0, unregCount := scan.2.1, produce := getTypeConverters,
      invoked := 0, allInvocationsAllReg := true }
  let st1 : EngineState :=
    { st with typeDependencies := td, awaitingDependencies := scan.2.2,
              pendings := st.pendings ++ [p] }
  if scan.2.1 = 0 then completePending fuel st1 pid else (st1, none)

/-- A top-level engine operation: a registration import registering one
type, or one `whenDependentTypesAreResolved` call. -/
inductive Op where
  | register (rawType : Int) (t : RType) (options : Option RegisterTypeOptions)
  | resolve (myTypes deps : List Int)
      (produce : List (Option RType) → Except Err (List RType))

def runOp (fuel : Nat) (st : EngineState) : Op → EngineState × Option Err
  | .register r t o => registerTypeF fuel st r t o
  | .resolve my dep p => whenDependentTypesAreResolvedF fuel st my dep p

/-- Run a sequence of top-level operations from a state, stopping at the
first failing one (a failing registration import aborts guest init). -/
def runOps (fuel : Nat) : EngineState → List Op → EngineState × Option Err
  | st, [] => (st, none)
  | st, op :: rest =>
    match runOp fuel st op with
    | (st', none) => runOps fuel st' rest
    | (st', some e) => (st', some e)

/-- A concrete registered-type record used as the input of witnesses and
counterexamples (an `int32`-style codec with no destructor). -/
def sampleType (r : Int) (name : String) : RType :=
  { rawType := r, name := name, isVoid := false,
    destructorFunction := none,
    fromWireType := fun w => .ok (.num (decodeI32 w)),
    toWireType := fun v =>
      match v with
      | .num n => .ok (encodeI32 n, [])
      | _ => .error (.msg "value must be of type int"),
    argPackAdvance := 8,
    readValueFromPointer := fun _ => .error (.msg "unused") }

/-- Concrete operation sequences used by witnesses: one
`whenDependentTypesAreResolved` call awaiting raw type 7, followed by the
registration of raw type 7. -/
def opsPre : List Op := []

def opsPost : List Op := [Op.register 7 (sampleType 7 "intT") none]

def produceNothing : List (Option RType) → Except Err (List RType) := fun _ => .ok []

def opsC : List Op := opsPre ++ Op.resolve [] [7] produceNothing :: opsPost

def stC : EngineState := (runOps 4 emptyEngine opsC).1

def pidC : Nat := (runOps 4 emptyEngine opsPre).1.pendings.length

/-- Existing registry bindings survive a state transition. -/
def PreservesReg (st st' : EngineState) : Prop :=
  ∀ k v, lookupA st.registeredTypes k = some v → lookupA st'.registeredTypes k = some v

/-! ## Resolver invariants (for claim C3)

`WFICore`/`WFI` capture the state of all pending `whenDependentTypesAreResolved`
calls: every awaiting callback points at a live pending record and an
unregistered dependency; the `registered` counter plus the callbacks still
queued (in the awaiting lists or in-flight in a drain loop, parameter `L`)
equals the number of initially-unregistered dependencies; a dependency with
no queued callback is registered; and `getTypeConverters` has run exactly
once iff the counter is full. -/

/-- Occurrences of callbacks of pending `pid` in a callback list. -/
def countCbsIn (l : List Callback) (pid : Nat) : Nat :=
  (l.filter fun cb => cb.pid == pid).length

/-- Occurrences of callbacks of pending `pid` across all awaiting lists. -/
def pendingCbCount (aw : List (Int × List Callback)) (pid : Nat) : Nat :=
  (aw.map fun e => countCbsIn e.2 pid).sum

/-- The keys of an association list are pairwise distinct. -/
def keysNodup {K V : Type} (l : List (K × V)) : Prop := (l.map Prod.fst).Nodup

/-- The invocation counter of a pending record is full iff its
`registered` counter is. -/
def DOk (p : Pending) : Prop :=
  p.invoked = (if p.registered = p.unregCount then 1 else 0)

structure WFICore (st : EngineState) (L : List Callback) : Prop where
  keys : keysNodup st.awaitingDependencies
  aw : ∀ d l, lookupA st.awaitingDependencies d = some l → ∀ cb ∈ l,
      lookupA st.registeredTypes d = none ∧
      ∃ p : Pending, st.pendings[cb.pid]? = some p ∧ p.deps[cb.idx]? = some d
  infl : ∀ cb ∈ L, ∃ (p : Pending) (d : Int),
      st.pendings[cb.pid]? = some p ∧ p.deps[cb.idx]? = some d ∧
      lookupA st.registeredTypes d ≠ none
  cnt : ∀ (pid : Nat) (p : Pending), st.pendings[pid]? = some p →
      p.registered + pendingCbCount st.awaitingDependencies pid + countCbsIn L pid
        = p.unregCount
  frontier : ∀ (pid : Nat) (p : Pending), st.pendings[pid]? = some p →
      ∀ (i : Nat) (d : Int), p.deps[i]? = some d →
      (∀ d' l, lookupA st.awaitingDependencies d' = some l → (⟨pid, i⟩ : Callback) ∉ l) →
      (⟨pid, i⟩ : Callback) ∉ L →
      lookupA st.registeredTypes d ≠ none
  ginv : ∀ (pid : Nat) (p : Pending), st.pendings[pid]? = some p →
      p.allInvocationsAllReg = true

/-- The full invariant between operations. -/
def WFI (st : EngineState) (L : List Callback) : Prop :=
  WFICore st L ∧ ∀ (pid : Nat) (p : Pending), st.pendings[pid]? = some p → DOk p

/-- The invariant at entry to `onComplete` for pending `pid₀`: its counter
is full but `getTypeConverters` has not run yet. -/
def WFIexc (st : EngineState) (L : List Callback) (pid₀ : Nat) : Prop :=
  WFICore st L
  ∧ (∀ (pid : Nat) (p : Pending), st.pendings[pid]? = some p → pid ≠ pid₀ → DOk p)
  ∧ (∀ p : Pending, st.pendings[pid₀]? = some p →
      p.invoked = 0 ∧ p.registered = p.unregCount)

/-- All dependency ids of pending `pid` are registered. -/
def AllDepsReg (st : EngineState) (pid : Nat) : Prop :=
  ∀ p : Pending, st.pendings[pid]? = some p →
    ∀ d ∈ p.deps, lookupA st.registeredTypes d ≠ none

/-- Pending records are stable: no transition removes one or changes its
immutable fields (`deps`, `myTypes`, `unregCount`, `produce`). -/
def PendStable (st st' : EngineState) : Prop :=
  ∀ (pid : Nat) (p : Pending), st.pendings[pid]? = some p →
    ∃ p' : Pending, st'.pendings[pid]? = some p' ∧ p'.deps = p.deps ∧
      p'.myTypes = p.myTypes ∧ p'.unregCount = p.unregCount ∧ p'.produce = p.produce

/-! ## Unbound-type reporting (`checkRegisteredTypeDependencies`,
`createUnboundTypeError`)

The Go `seen *map[int32]bool` threads through the recursion (the map is
shared); it becomes an explicit `List Int` accumulator.  Fuel bounds the
recursion depth; `none` is exhaustion. -/

mutual

/-- Go function `engine.checkRegisteredTypeDependencies`: an already-seen or
registered type contributes nothing; a type with a `typeDependencies` entry
recurses into its dependencies, appends their results to `unboundTypes` and
then returns `nil` (the Go code discards `unboundTypes` on this path, line
509); otherwise the type itself is reported and marked seen. -/
def checkDeps : Nat → EngineState → Int → List Int → Option (List Int × List Int)
  | 0, _, _, _ => none
  | fuel + 1, st, typeToVisit, seen =>
    if typeToVisit ∈ seen then some ([], seen)
    else if (lookupA st.registeredTypes typeToVisit).isSome then some ([], seen)
    else
      match lookupA st.typeDependencies typeToVisit with
      | some deps =>
        match checkDepsList fuel st deps seen with
        | none => none
        | some (_, seen1) => some ([], seen1)
      | none => some ([typeToVisit], typeToVisit :: seen)

/-- The loops of `checkRegisteredTypeDependencies` (over one type's
dependency list) and of `createUnboundTypeError` (over the queried types):
visit each type in order, threading the seen set and appending the reported
unbound types. -/
def checkDepsList : Nat → EngineState → List Int → List Int → Option (List Int × List Int)
  | _, _, [], seen => some ([], seen)
  | 0, _, _ :: _, _ => none
  | fuel + 1, st, t :: rest, seen =>
    match checkDeps fuel st t seen with
    | none => none
    | some (u, seen1) =>
      match checkDepsList fuel st rest seen1 with
      | none => none
      | some (us, seen2) => some (u ++ us, seen2)

end

/-- The name-resolution loop of `createUnboundTypeError`: resolve the name
of every unregistered type through `getTypeName` (a guest call, here the
behavior parameter `typeName`), stopping at the first error. -/
def typeNamesLoop (typeName : Int → Except Err String) : List Int → Except Err (List String)
  | [] => .ok []
  | t :: rest =>
    match typeName t with
    | .error e => .error e
    | .ok n =>
      match typeNamesLoop typeName rest with
      | .error e => .error e
      | .ok ns => .ok (n :: ns)

/-- Go function `engine.createUnboundTypeError`: traverse the dependency
tree from each queried type, collect the still-missing ids, resolve their
names and build the error. -/
def createUnboundTypeErrorF (fuel : Nat) (st : EngineState)
    (typeName : Int → Except Err String) (message : String) (types : List Int) : Err :=
  match checkDepsList fuel st types [] with
  | none => .outOfFuel
  | some (unregisteredTypes, _) =>
    match typeNamesLoop typeName unregisteredTypes with
    | .error e => e
    | .ok typeNames => .unboundTypes message typeNames

/-! ## The crafted invoker (`craftInvokerFunction`, `runDestructors`)

`runExport` is the behavior of guest exported functions (used by
`runDestructors`).  The invoker result carries two instrumentation lists:
the destructors actually run (in order) and the destructors scheduled while
encoding `this` and the parameters. -/

/-- Go function `engine.runDestructors`: call each destructor's guest export
in order, stopping at the first error.  Returns the destructors that were
run successfully. -/
def runDestructorsM (runExport : String → List Nat → Except Err Unit) :
    List Dtor → List Dtor × Option Err
  | [] => ([], none)
  | d :: rest =>
    match runExport d.function d.args with
    | .error e => ([], some e)
    | .ok _ =>
      let r := runDestructorsM runExport rest
      (d :: r.1, r.2)

/-- The argument-encoding loop of the crafted invoker: encode each argument
through its type's `toWireType`, collecting wire words and appended
destructors.  On an error at argument `i` the destructors appended by the
earlier arguments remain collected (they were appended to the shared list
in Go) but the loop aborts. -/
def encodeArgLoop : List (Option RType) → List Value → Nat →
    Except Err (List Nat) × List Dtor
  | [], [], _ => (.ok [], [])
  | some t :: ts, a :: rest, i =>
    match t.toWireType a with
    | .error e => (.error (.encodeArg i t.name e), [])
    | .ok (w, ds) =>
      match encodeArgLoop ts rest (i + 1) with
      | (.error e, ds2) => (.error e, ds ++ ds2)
      | (.ok ws, ds2) => (.ok (w :: ws), ds ++ ds2)
  | none :: _, _, _ => (.error (.msg "nil argument type"), [])
  | _, _, _ => (.error (.msg "argument count mismatch"), [])

/-- The fallback destructor loop of the crafted invoker (taken when no
dynamic destructor stack is needed): walk `argTypes[startArg:]` and run each
type's own `destructorFunction` on the matching wire word of `callArgs`.
The guard on `needsDestructorStack` makes every `destructorFunction` on this
path `none`, so the loop is vacuous, as in the source. -/
def perArgDtorLoop (callArgs : List Nat) : List (Option RType) → Nat → Except Err Unit
  | [], _ => .ok ()
  | t :: rest, i =>
    match t with
    | some rt =>
      match rt.destructorFunction with
      | some df =>
        match df (decodeU32 ((callArgs[i]?).getD 0)) with
        | .error e => .error e
        | .ok _ => perArgDtorLoop callArgs rest (i + 1)
      | none => perArgDtorLoop callArgs rest (i + 1)
    | none => perArgDtorLoop callArgs rest (i + 1)

/-- The `needsDestructorStack` scan of `craftInvokerFunction`: true when
some `argTypes[i]`, `i ≥ 1`, has a non-nil `destructorFunction`. -/
def needsDestructorStackB (sp : InvokerSpec) : Bool :=
  (sp.argTypes.drop 1).any fun t =>
    match t with
    | some rt => rt.destructorFunction.isSome
    | none => false

/-- The `this`-encoding step of the crafted invoker: when the invoker is a
class method, encode `this` through `argTypes[1].toWireType` (collecting its
appended destructors); otherwise no wire word and no destructors. -/
def encodeThisM (sp : InvokerSpec) (classParamO : Option RType) (this : Value) :
    Except Err (Option Nat × List Dtor) :=
  if classParamO.isSome && sp.hasClassType then
    match classParamO with
    | some cp =>
      match cp.toWireType this with
      | .error e => .error (.encodeClassParam e)
      | .ok (w, ds) => .ok (some w, ds)
    | none => .error (.msg "nil class param")
  else .ok (none, [])

/-- The host-callable returned by `engine.craftInvokerFunction`: check the
argument count, encode `this` and the parameters, call the C++-side invoker,
run the destructor stack (or the vacuous per-type loop), and decode the
return value when the return type is not `void`.  The result carries the
run-destructor trace and the scheduled-destructor list; note every error
path before `runDestructors` returns with an empty run trace, as the Go code
returns without running the already-scheduled destructors. -/
def invokeModel (runExport : String → List Nat → Except Err Unit) (sp : InvokerSpec)
    (this : Value) (arguments : List Value) :
    Except Err (Option Value) × List Dtor × List Dtor :=
  match sp.argTypes[0]? with
  | none => (.error (.msg "argTypes array size mismatch"), [], [])
  | some none => (.error (.msg "nil return type"), [], [])
  | some (some retType) =>
    match sp.argTypes[1]? with
    | none => (.error (.msg "argTypes array size mismatch"), [], [])
    | some classParamO =>
      let argCount := sp.argTypes.length
      if arguments.length ≠ argCount - 2 then
        (.error (.wrongArgCount sp.humanName arguments.length (argCount - 2)), [], [])
      else
        match encodeThisM sp classParamO this with
        | .error e => (.error e, [], [])
        | .ok (thisWired, ds0) =>
          match encodeArgLoop (sp.argTypes.drop 2) arguments 0 with
          | (.error e, ds1) => (.error e, [], ds0 ++ ds1)
          | (.ok argsWired, ds1) =>
            let destructors := ds0 ++ ds1
            let callArgs := encodeI32 sp.cppTargetFunc ::
              ((match thisWired with | some w0 => [w0] | none => []) ++ argsWired)
            match sp.invokerBehavior callArgs with
            | .error e => (.error e, [], destructors)
            | .ok res =>
              let startArg := if classParamO.isSome && sp.hasClassType then 1 else 2
              let afterDtors : Except Err Unit × List Dtor :=
                if needsDestructorStackB sp then
                  match runDestructorsM runExport destructors with
                  | (ran, some e) => (.error e, ran)
                  | (ran, none) => (.ok (), ran)
                else
                  match perArgDtorLoop callArgs (sp.argTypes.drop startArg) startArg with
                  | .error e => (.error e, [])
                  | .ok _ => (.ok (), [])
              match afterDtors with
              | (.error e, ran) => (.error e, ran, destructors)
              | (.ok _, ran) =>
                if retType.name != "void" then
                  match res[0]? with
                  | none => (.error .noResult, ran, destructors)
                  | some r0 =>
                    match retType.fromWireType r0 with
                    | .error e => (.error (.decodeReturn retType.name e), ran, destructors)
                    | .ok rv => (.ok (some rv), ran, destructors)
                else (.ok none, ran, destructors)

/-! ## Public symbols, overload dispatch, `CallFunction` -/

/-- Interpreter for the defunctionalized `publicSymbol.fn` codes.  The
dispatcher installed by `ensureOverloadTable` looks up the overload keyed by
`int32(len(arguments))`; a miss builds the "expects one of" list with
`make([]string, len(table))` followed by `append`s, prepending one empty
string per table entry (the source's lines 172-174); a hit calls the
overload's `fn` passing the `[]any` slice `arguments` as a single variadic
element, because the source's line 179 omits the `...` spread. -/
def callFnCode (runExport : String → List Nat → Except Err Unit)
    (typeName : Int → Except Err String) :
    Nat → EngineState → FnCode → Value → List Value → Except Err (Option Value)
  | 0, _, _, _, _ => .error .outOfFuel
  | fuel + 1, st, fc, this, arguments =>
    match fc with
    | .unboundStub message types =>
      .error (createUnboundTypeErrorF (fuel + 1) st typeName message types)
    | .invoker sp => (invokeModel runExport sp this arguments).1
    | .ext behavior => behavior this arguments
    | .dispatcher methodName humanName =>
      match lookupA st.publicSymbols methodName with
      | none => .error (.nilSymbol methodName)
      | some ps =>
        let tbl := ps.overloadTable.getD []
        match lookupA tbl (decodeI32 arguments.length) with
        | none =>
          .error (.invalidArgCount humanName arguments.length
            (List.replicate tbl.length "" ++ tbl.map fun en => toString en.1))
        | some overload =>
          callFnCode runExport typeName fuel st overload.fn this [Value.arr arguments]

/-- Go method `engine.CallFunction`: look the symbol up, call its `fn` with
a nil `this`, and wrap any error with the function's name. -/
def CallFunctionM (runExport : String → List Nat → Except Err Unit)
    (typeName : Int → Except Err String) (fuel : Nat) (st : EngineState)
    (name : String) (arguments : List Value) : Except Err (Option Value) :=
  match lookupA st.publicSymbols name with
  | none => .error (.symbolNotFound name)
  | some ps =>
    match callFnCode runExport typeName fuel st ps.fn Value.null arguments with
    | .error e => .error (.callError name e)
    | .ok res => .ok res

/-- Go function `engine.ensureOverloadTable`: when the symbol has no
overload table yet, move its current `fn`/`argCount` into a fresh table
under key `argCount` and install the dispatcher as the symbol's `fn`.
Callers establish that `methodName` is present (the Go code would nil-deref
otherwise). -/
def ensureOverloadTableM (syms : List (String × PublicSymbol))
    (methodName humanName : String) : List (String × PublicSymbol) :=
  match lookupA syms methodName with
  | none => syms
  | some ps =>
    match ps.overloadTable with
    | some _ => syms
    | none =>
      insertA syms methodName
        (.mk ps.argCount (some [(ps.argCount, .mk ps.argCount none ps.fn)])
          (.dispatcher methodName humanName))

/-- Go function `engine.exposePublicSymbol`: an absent name is installed
directly; a present name whose overload table already has `numArguments`
fails (Go panics); otherwise the table is ensured and the new function is
added under `numArguments`. -/
def exposePublicSymbolM (syms : List (String × PublicSymbol)) (name : String)
    (value : FnCode) (numArguments : Int) : Except Err (List (String × PublicSymbol)) :=
  match lookupA syms name with
  | none => .ok (insertA syms name (.mk numArguments none value))
  | some ps =>
    let dup :=
      match ps.overloadTable with
      | none => false
      | some tbl => (lookupA tbl numArguments).isSome
    if dup then .error (.cannotRegisterPublicNameTwice name)
    else
      let syms1 := ensureOverloadTableM syms name name
      match lookupA syms1 name with
      | none => .error (.nilSymbol name)
      | some ps1 =>
        match ps1.overloadTable with
        | none => .error (.nilSymbol name)
        | some tbl =>
          .ok (insertA syms1 name
            (.mk ps1.argCount (some (insertA tbl numArguments (.mk numArguments none value)))
              ps1.fn))

/-- Go function `engine.replacePublicSymbol`: a missing name fails; with an
overload table and `numArguments > 0` the arity-keyed slot is replaced; in
every other case (no table, or `numArguments ≤ 0` even when a table exists)
the top-level entry is replaced. -/
def replacePublicSymbolM (syms : List (String × PublicSymbol)) (name : String)
    (value : FnCode) (numArguments : Int) : Except Err (List (String × PublicSymbol)) :=
  match lookupA syms name with
  | none => .error (.replaceNonexistent name)
  | some ps =>
    match ps.overloadTable with
    | some tbl =>
      if numArguments > 0 then
        .ok (insertA syms name
          (.mk ps.argCount (some (insertA tbl numArguments (.mk numArguments none value)))
            ps.fn))
      else .ok (insertA syms name (.mk numArguments none value))
    | none => .ok (insertA syms name (.mk numArguments none value))

/-! ## Registration host imports (`host_functions.go`) -/

/-- The `registeredType` built by `EmbindRegisterBool`: a `boolType` with
`argPackAdvance` 8 and the given sentinels, bridged to the engine's
registered-type record. -/
def boolRType (rawType : Int) (name : String) (size trueVal falseVal : Int) : RType :=
  { rawType := rawType, name := name, isVoid := false,
    destructorFunction := none,
    fromWireType := fun w => .ok (BoolType.fromWireType ⟨name, size, trueVal, falseVal⟩ w),
    toWireType := fun v => (BoolType.toWireType ⟨name, size, trueVal, falseVal⟩ v).map
      (fun w => (w, [])),
    argPackAdvance := 8,
    readValueFromPointer := fun _ => .error (.msg "unused") }

/-- Modelled from the spec (the integer codec's source file is not in
`src/`): decoding a sized integer reads the little-endian word of that size
from the wire slot, signed or unsigned per the `signed` flag; an unknown
size is an error. -/
def intFromWireType (signed : Bool) (size : Int) (w : Nat) : Except Err Int :=
  let bits : Option Nat :=
    if size = 1 then some 8 else if size = 2 then some 16
    else if size = 4 then some 32 else if size = 8 then some 64 else none
  match bits with
  | none => .error (.msg "unknown type size")
  | some b =>
    let m : Nat := w % 2 ^ b
    if signed = true ∧ 2 ^ (b - 1) ≤ m then .ok ((m : Int) - 2 ^ b) else .ok (m : Int)

/-- The `registeredType` built by `EmbindRegisterInteger`: an `intType`
whose signedness comes from the registered name not containing "unsigned"
(host_functions.go line 160); the codec itself is modelled from the spec. -/
def intRType (rawType : Int) (name : String) (size : Int) : RType :=
  { rawType := rawType, name := name, isVoid := false,
    destructorFunction := none,
    fromWireType := fun w =>
      (intFromWireType (decide ((name.splitOn "unsigned").length = 1)) size w).map .num,
    toWireType := fun v =>
      match v with
      | .num n => .ok (encodeI32 n, [])
      | _ => .error (.msg "value must be of type int"),
    argPackAdvance := 8,
    readValueFromPointer := fun _ => .error (.msg "unused") }

/-- The `_embind_register_bool` host import body: build the `boolType` and
call `registerType`.  The error returned by `registerType` is assigned to
`err` and never checked (host_functions.go line 124), so the import
completes normally — the second result is always `none` even when the
registration failed. -/
def embindRegisterBool (fuel : Nat) (st : EngineState) (rawType : Int)
    (name : String) (size trueVal falseVal : Int) : EngineState × Option Err :=
  let r := registerTypeF fuel st rawType (boolRType rawType name size trueVal falseVal) none
  (r.1, none)

/-- The `_embind_register_integer` host import body: build the `intType` and
call `registerType`.  As in `embindRegisterBool`, the `registerType` error
is assigned and never checked (host_functions.go line 153). -/
def embindRegisterInteger (fuel : Nat) (st : EngineState) (rawType : Int)
    (name : String) (size _minRange _maxRange : Int) : EngineState × Option Err :=
  let r := registerTypeF fuel st rawType (intRType rawType name size) none
  (r.1, none)

/-! ## Enum value registration (`_embind_register_enum_value`)

The `enumType`/`enumValue` structs are not in `src/`; their fields are
modelled from the spec (a registered enum is a base type plus two
bidirectional maps name → value and wire-integer → value, values carrying
`hasCppValue`/`cppValue`), and the host-import body follows
host_functions.go lines 457-501. -/

structure EnumValue where
  name : String
  hasCppValue : Bool
  cppValue : Int
  deriving Repr, DecidableEq

structure EnumType where
  name : String
  signed : Bool
  size : Int
  valuesByName : List (String × EnumValue)
  valuesByCppValue : List (Int × EnumValue)
  deriving Repr, DecidableEq

/-- The slice of the engine relevant to enum value registration: the
registered enum types keyed by raw type id. -/
structure EnumEngine where
  enums : List (Int × EnumType)
  deriving Repr, DecidableEq

/-- The `_embind_register_enum_value` host import body: an unknown raw type
panics; the wire value is decoded through the enum's integer helper; a
missing `valuesByName` entry is created; an entry that already
`hasCppValue` panics "was already registered" leaving the maps unchanged;
otherwise the entry gains its C++ value and is indexed in
`valuesByCppValue`. -/
def embindRegisterEnumValue (st : EnumEngine) (rawType : Int) (name : String)
    (wireWord : Nat) : EnumEngine × Option Err :=
  match lookupA st.enums rawType with
  | none => (st, some (.unknownEnumType name (toString rawType)))
  | some et =>
    match intFromWireType et.signed et.size wireWord with
    | .error _ => (st, some (.msg ("could not read value for enum " ++ name)))
    | .ok enumWireValue =>
      let vbn :=
        match lookupA et.valuesByName name with
        | none => insertA et.valuesByName name ⟨name, false, 0⟩
        | some _ => et.valuesByName
      match lookupA vbn name with
      | none => (st, some (.msg "unreachable"))
      | some ev =>
        if ev.hasCppValue then
          (st, some (.enumValueAlreadyRegistered name et.name))
        else
          let ev' : EnumValue := { ev with hasCppValue := true, cppValue := enumWireValue }
          let et' : EnumType :=
            { et with valuesByName := insertA vbn name ev',
                      valuesByCppValue := insertA et.valuesByCppValue enumWireValue ev' }
          (⟨insertA st.enums rawType et'⟩, none)

/-! ## Fixtures for the remaining witnesses and counterexamples -/

/-- Guest-export behavior where every destructor call succeeds. -/
def okExport : String → List Nat → Except Err Unit := fun _ _ => .ok ()

/-- Type-name behavior answering each raw id with its decimal rendering. -/
def noTypeName : Int → Except Err String := fun t => .ok (toString t)

/-- An opaque host function echoing its received argument list, tagged
"two"; it stands for the 2-arity overload. -/
def fnTwo : FnCode := .ext fun _ args => .ok (some (.arr (.str "two" :: args)))

/-- An opaque host function echoing its received argument list, tagged
"three"; it stands for the 3-arity overload. -/
def fnThree : FnCode := .ext fun _ args => .ok (some (.arr (.str "three" :: args)))

/-- The public-symbol table after exposing `add` at arity 2 and then at
arity 3 (scenario S2). -/
def symsAdd : List (String × PublicSymbol) :=
  match exposePublicSymbolM [] "add" fnTwo 2 with
  | .error _ => []
  | .ok s1 =>
    match exposePublicSymbolM s1 "add" fnThree 3 with
    | .error _ => []
    | .ok s2 => s2

/-- The engine of scenario S2. -/
def stAdd : EngineState := { emptyEngine with publicSymbols := symsAdd }

/-- A `void` return type record. -/
def voidRet : RType :=
  { rawType := 0, name := "void", isVoid := true, destructorFunction := none,
    fromWireType := fun _ => .ok .undef,
    toWireType := fun _ => .error (.msg "cannot encode void"),
    argPackAdvance := 8, readValueFromPointer := fun _ => .ok .undef }

/-- An integer-like parameter type whose encoder schedules one destructor
per encoded value and whose record declares a destructor function (so the
crafted invoker uses the dynamic destructor stack). -/
def dtorType (r : Int) (name : String) : RType :=
  { rawType := r, name := name, isVoid := false,
    destructorFunction := some fun _ => .ok (),
    fromWireType := fun w => .ok (.num (decodeI32 w)),
    toWireType := fun v =>
      match v with
      | .num n => .ok (encodeI32 n, [⟨"free" ++ name, [encodeI32 n]⟩])
      | _ => .error (.msg "value must be of type int"),
    argPackAdvance := 8,
    readValueFromPointer := fun _ => .error (.msg "unused") }

/-- A crafted-invoker specification: `void f(p0, p1)` with two
destructor-scheduling parameter types, not a class method. -/
def spC2 : InvokerSpec :=
  { humanName := "f",
    argTypes := [some voidRet, none, some (dtorType 1 "p0"), some (dtorType 2 "p1")],
    hasClassType := false,
    invokerBehavior := fun _ => .ok [0],
    cppTargetFunc := 9 }

/-- An engine where unregistered type 8 depends on unregistered type 7. -/
def stDep : EngineState := { emptyEngine with typeDependencies := [(8, [7])] }

/-- A symbol table where `f` has an overload table with a 2-arity entry. -/
def syms7 : List (String × PublicSymbol) :=
  [("f", .mk 2 (some [(2, .mk 2 none fnTwo)]) (.dispatcher "f" "f"))]

/-- An engine with raw type 7 already registered. -/
def st8 : EngineState := (registerTypeF 1 emptyEngine 7 (sampleType 7 "intT") none).1

/-- A registered enum type with no values yet. -/
def colorEnum : EnumType :=
  { name := "Color", signed := true, size := 4, valuesByName := [], valuesByCppValue := [] }

/-- An enum engine with `Color` registered at raw type 3. -/
def stE0 : EnumEngine := ⟨[(3, colorEnum)]⟩

/-- The enum engine after registering the value `GREEN = 1`. -/
def stE1 : EnumEngine := (embindRegisterEnumValue stE0 3 "GREEN" 1).1

/-! ## Association-list lemmas -/

theorem lookupA_insertA_self {K V : Type} [DecidableEq K]
    (l : List (K × V)) (k : K) (v : V) : lookupA (insertA l k v) k = some v := by
  induction l with
  | nil => simp [insertA, lookupA]
  | cons hd tl ih =>
    obtain ⟨k', v'⟩ := hd
    by_cases h : k' = k
    · simp [insertA, lookupA, h]
    · simp [insertA, lookupA, h, ih]

theorem lookupA_insertA_ne {K V : Type} [DecidableEq K]
    (l : List (K × V)) (k k' : K) (v : V) (h : k ≠ k') :
    lookupA (insertA l k v) k' = lookupA l k' := by
  induction l with
  | nil => simp [insertA, lookupA, h]
  | cons hd tl ih =>
    obtain ⟨k₀, v₀⟩ := hd
    by_cases hk : k₀ = k
    · subst hk
      simp [insertA, lookupA, h]
    · simp [insertA, lookupA, hk, ih]

theorem lookupA_eraseA_self {K V : Type} [DecidableEq K]
    (l : List (K × V)) (k : K) : lookupA (eraseA l k) k = none := by
  induction l with
  | nil => simp [eraseA, lookupA]
  | cons hd tl ih =>
    obtain ⟨k₀, v₀⟩ := hd
    by_cases hk : k₀ = k
    · simp [eraseA, hk, ih]
    · simp [eraseA, lookupA, hk, ih]

theorem lookupA_eraseA_ne {K V : Type} [DecidableEq K]
    (l : List (K × V)) (k k' : K) (h : k ≠ k') :
    lookupA (eraseA l k) k' = lookupA l k' := by
  induction l with
  | nil => simp [eraseA]
  | cons hd tl ih =>
    obtain ⟨k₀, v₀⟩ := hd
    by_cases hk : k₀ = k
    · subst hk
      simp [eraseA, lookupA, h, ih]
    · simp [eraseA, lookupA, hk, ih]

theorem preservesReg_refl (st : EngineState) : PreservesReg st st := fun _ _ h => h

theorem preservesReg_trans {a b c : EngineState}
    (h1 : PreservesReg a b) (h2 : PreservesReg b c) : PreservesReg a c :=
  fun k v h => h2 k v (h1 k v h)

theorem preservesReg_of_eq {st st' : EngineState}
    (h : st'.registeredTypes = st.registeredTypes) : PreservesReg st st' := by
  intro k v hkv; rw [h]; exact hkv

theorem preservesReg_insert {st st' : EngineState} {r : Int} {t : RType}
    (hfresh : lookupA st.registeredTypes r = none)
    (h : st'.registeredTypes = insertA st.registeredTypes r t) :
    PreservesReg st st' := by
  intro k v hkv
  rw [h]
  rcases eq_or_ne r k with hrk | hrk
  · rw [hrk] at hfresh; rw [hfresh] at hkv; cases hkv
  · rw [lookupA_insertA_ne _ _ _ _ hrk]; exact hkv

/-- No function of the registration cascade ever removes or overwrites an
existing registry binding (types, once registered, are immutable). -/
theorem cascade_preservesReg (fuel : Nat) :
    (∀ st r t o, PreservesReg st (registerTypeF fuel st r t o).1)
    ∧ (∀ st cbs, PreservesReg st (runCallbacks fuel st cbs).1)
    ∧ (∀ st cb, PreservesReg st (fireCallback fuel st cb).1)
    ∧ (∀ st pid, PreservesReg st (completePending fuel st pid).1)
    ∧ (∀ st l, PreservesReg st (registerEach fuel st l).1) := by
  induction fuel with
  | zero =>
    refine ⟨?_, ?_, ?_, ?_, ?_⟩
    · intro st r t o; exact preservesReg_refl st
    · intro st cbs
      cases cbs with
      | nil => exact preservesReg_refl st
      | cons cb rest => exact preservesReg_refl st
    · intro st cb; exact preservesReg_refl st
    · intro st pid; exact preservesReg_refl st
    · intro st l
      cases l with
      | nil => exact preservesReg_refl st
      | cons hd rest => exact preservesReg_refl st
  | succ fuel ih =>
    obtain ⟨ihReg, ihRun, ihFire, ihComplete, ihEach⟩ := ih
    refine ⟨?_, ?_, ?_, ?_, ?_⟩
    · intro st r t o
      by_cases hr : r = 0
      · simp [registerTypeF, hr, preservesReg_refl]
      · cases hlook : lookupA st.registeredTypes r with
        | some u =>
          cases o with
          | none => simp [registerTypeF, hr, hlook, preservesReg_refl]
          | some oo =>
            by_cases hig : oo.ignoreDuplicateRegistrations <;>
              simp [registerTypeF, hr, hlook, hig, preservesReg_refl]
        | none =>
          cases haw : lookupA st.awaitingDependencies r with
          | none =>
            simp only [registerTypeF, hr, if_false, hlook, haw]
            exact preservesReg_insert hlook rfl
          | some cbs =>
            simp only [registerTypeF, hr, if_false, hlook, haw]
            exact preservesReg_trans (preservesReg_insert hlook rfl) (ihRun _ cbs)
    · intro st cbs
      cases cbs with
      | nil => exact preservesReg_refl st
      | cons cb rest =>
        cases hf : fireCallback fuel st cb with
        | mk stf e =>
          have h1 : PreservesReg st stf := by
            have := ihFire st cb; rw [hf] at this; exact this
          cases e with
          | none =>
            simp only [runCallbacks, hf]
            exact preservesReg_trans h1 (ihRun stf rest)
          | some err =>
            simp only [runCallbacks, hf]
            exact h1
    · intro st cb
      cases hp : st.pendings[cb.pid]? with
      | none => simp [fireCallback, hp, preservesReg_refl]
      | some p =>
        cases hd : p.deps[cb.idx]? with
        | none => simp [fireCallback, hp, hd, preservesReg_refl]
        | some dep =>
          simp only [fireCallback, hp, hd]
          split
          · refine preservesReg_trans ?_ (ihComplete _ cb.pid)
            exact preservesReg_of_eq rfl
          · exact preservesReg_of_eq rfl
    · intro st pid
      cases hp : st.pendings[pid]? with
      | none => simp [completePending, hp, preservesReg_refl]
      | some p =>
        simp only [completePending, hp]
        split
        · exact preservesReg_of_eq rfl
        · split
          · exact preservesReg_of_eq rfl
          · refine preservesReg_trans ?_ (ihEach _ _)
            exact preservesReg_of_eq rfl
    · intro st l
      cases l with
      | nil => exact preservesReg_refl st
      | cons hd rest =>
        obtain ⟨r, t⟩ := hd
        cases hf : registerTypeF fuel st r t none with
        | mk stf e =>
          have h1 : PreservesReg st stf := by
            have := ihReg st r t none; rw [hf] at this; exact this
          cases e with
          | none =>
            simp only [registerEach, hf]
            exact preservesReg_trans h1 (ihEach stf rest)
          | some err =>
            simp only [registerEach, hf]
            exact h1

theorem lookupA_mem {K V : Type} [DecidableEq K] {l : List (K × V)} {k : K} {v : V}
    (h : lookupA l k = some v) : (k, v) ∈ l := by
  induction l with
  | nil => simp [lookupA] at h
  | cons hd tl ih =>
    obtain ⟨k₀, v₀⟩ := hd
    by_cases hk : k₀ = k
    · subst hk
      simp [lookupA] at h
      subst h
      exact List.mem_cons_self _ _
    · simp [lookupA, hk] at h
      exact List.mem_cons_of_mem _ (ih h)

theorem mem_of_mem_eraseA {K V : Type} [DecidableEq K] {l : List (K × V)} {k : K}
    {x : K × V} (h : x ∈ eraseA l k) : x ∈ l := by
  induction l with
  | nil => simp [eraseA] at h
  | cons hd tl ih =>
    obtain ⟨k₀, v₀⟩ := hd
    by_cases hk : k₀ = k
    · simp only [eraseA, if_pos hk] at h
      exact List.mem_cons_of_mem _ (ih h)
    · simp only [eraseA, if_neg hk, List.mem_cons] at h
      rcases h with h | h
      · exact List.mem_cons.mpr (Or.inl h)
      · exact List.mem_cons_of_mem _ (ih h)

theorem mem_of_mem_insertA {K V : Type} [DecidableEq K] {l : List (K × V)} {k : K}
    {v : V} {x : K × V} (h : x ∈ insertA l k v) : x = (k, v) ∨ x ∈ l := by
  induction l with
  | nil => simpa [insertA] using h
  | cons hd tl ih =>
    obtain ⟨k₀, v₀⟩ := hd
    by_cases hk : k₀ = k
    · simp only [insertA, if_pos hk, List.mem_cons] at h
      rcases h with h | h
      · exact Or.inl h
      · exact Or.inr (List.mem_cons_of_mem _ h)
    · simp only [insertA, if_neg hk, List.mem_cons] at h
      rcases h with h | h
      · exact Or.inr (List.mem_cons.mpr (Or.inl h))
      · rcases ih h with h | h
        · exact Or.inl h
        · exact Or.inr (List.mem_cons_of_mem _ h)

theorem lookupA_of_mem_nodup {K V : Type} [DecidableEq K] {l : List (K × V)} {k : K}
    {v : V} (hnd : keysNodup l) (h : (k, v) ∈ l) : lookupA l k = some v := by
  induction l with
  | nil => simp at h
  | cons hd tl ih =>
    obtain ⟨k₀, v₀⟩ := hd
    simp only [keysNodup, List.map_cons, List.nodup_cons] at hnd
    obtain ⟨h1, h2⟩ := hnd
    rcases List.mem_cons.mp h with hh | hh
    · rw [Prod.mk.injEq] at hh
      obtain ⟨hk, hv⟩ := hh
      subst hk
      subst hv
      simp [lookupA]
    · by_cases hk : k₀ = k
      · subst hk
        exact absurd (List.mem_map.mpr ⟨(k₀, v), hh, rfl⟩) h1
      · simpa [lookupA, hk] using ih h2 hh

theorem keysNodup_eraseA {K V : Type} [DecidableEq K] {l : List (K × V)} {k : K}
    (hnd : keysNodup l) : keysNodup (eraseA l k) := by
  induction l with
  | nil => simpa [eraseA] using hnd
  | cons hd tl ih =>
    obtain ⟨k₀, v₀⟩ := hd
    simp only [keysNodup, List.map_cons, List.nodup_cons] at hnd
    obtain ⟨h1, h2⟩ := hnd
    by_cases hk : k₀ = k
    · simpa [eraseA, hk] using ih h2
    · simp only [eraseA, if_neg hk, keysNodup, List.map_cons, List.nodup_cons]
      refine ⟨?_, ih h2⟩
      intro hmem
      apply h1
      obtain ⟨x, hx, hfst⟩ := List.mem_map.mp hmem
      exact List.mem_map.mpr ⟨x, mem_of_mem_eraseA hx, hfst⟩

theorem keysNodup_insertA {K V : Type} [DecidableEq K] {l : List (K × V)} {k : K} {v : V}
    (hnd : keysNodup l) : keysNodup (insertA l k v) := by
  induction l with
  | nil => simp [insertA, keysNodup]
  | cons hd tl ih =>
    obtain ⟨k₀, v₀⟩ := hd
    simp only [keysNodup, List.map_cons, List.nodup_cons] at hnd
    obtain ⟨h1, h2⟩ := hnd
    by_cases hk : k₀ = k
    · subst hk
      have he : insertA ((k₀, v₀) :: tl) k₀ v = (k₀, v) :: tl := by simp [insertA]
      rw [he]
      simp only [keysNodup, List.map_cons, List.nodup_cons]
      exact ⟨h1, h2⟩
    · simp only [insertA, if_neg hk, keysNodup, List.map_cons, List.nodup_cons]
      refine ⟨?_, ih h2⟩
      intro hmem
      obtain ⟨x, hx, hfst⟩ := List.mem_map.mp hmem
      rcases mem_of_mem_insertA hx with h | h
      · subst h
        simp only at hfst
        exact hk hfst.symm
      · exact h1 (List.mem_map.mpr ⟨x, h, hfst⟩)

theorem eraseA_eq_self {K V : Type} [DecidableEq K] {l : List (K × V)} {k : K}
    (h : ∀ v, (k, v) ∉ l) : eraseA l k = l := by
  induction l with
  | nil => simp [eraseA]
  | cons hd tl ih =>
    obtain ⟨k₀, v₀⟩ := hd
    by_cases hk : k₀ = k
    · exact absurd (hk ▸ List.mem_cons_self (k₀, v₀) tl) (h v₀)
    · simp only [eraseA, if_neg hk]
      rw [ih]
      intro v hv
      exact h v (List.mem_cons_of_mem _ hv)

theorem countCbsIn_append (a b : List Callback) (pid : Nat) :
    countCbsIn (a ++ b) pid = countCbsIn a pid + countCbsIn b pid := by
  simp [countCbsIn, List.filter_append]

theorem countCbsIn_eq_zero {l : List Callback} {pid : Nat} :
    countCbsIn l pid = 0 ↔ ∀ cb ∈ l, cb.pid ≠ pid := by
  simp [countCbsIn, List.length_eq_zero, List.filter_eq_nil_iff]

theorem pendingCbCount_eq_zero {aw : List (Int × List Callback)} {pid : Nat} :
    pendingCbCount aw pid = 0 ↔ ∀ e ∈ aw, countCbsIn e.2 pid = 0 := by
  rw [pendingCbCount, List.sum_eq_zero_iff]
  constructor
  · intro h e he
    exact h _ (List.mem_map.mpr ⟨e, he, rfl⟩)
  · intro h x hx
    obtain ⟨e, he, hfe⟩ := List.mem_map.mp hx
    rw [← hfe]
    exact h e he

theorem pendingCbCount_eraseA {aw : List (Int × List Callback)} {r : Int}
    {cbs : List Callback} {pid : Nat} (hnd : keysNodup aw)
    (h : lookupA aw r = some cbs) :
    pendingCbCount aw pid = pendingCbCount (eraseA aw r) pid + countCbsIn cbs pid := by
  induction aw with
  | nil => simp [lookupA] at h
  | cons hd tl ih =>
    obtain ⟨k₀, l₀⟩ := hd
    simp only [keysNodup, List.map_cons, List.nodup_cons] at hnd
    obtain ⟨h1, h2⟩ := hnd
    by_cases hk : k₀ = r
    · subst hk
      simp only [lookupA, if_true, eq_self_iff_true, if_pos] at h
      have hl : l₀ = cbs := Option.some.inj h
      subst hl
      have htl : eraseA tl k₀ = tl := by
        apply eraseA_eq_self
        intro v hv
        exact h1 (List.mem_map.mpr ⟨(k₀, v), hv, rfl⟩)
      have he : eraseA ((k₀, l₀) :: tl) k₀ = tl := by
        simp [eraseA, htl]
      rw [he]
      simp only [pendingCbCount, List.map_cons, List.sum_cons]
      omega
    · have hl : lookupA tl r = some cbs := by
        have he : lookupA ((k₀, l₀) :: tl) r = lookupA tl r := by simp [lookupA, hk]
        rw [← he]
        exact h
      have he : eraseA ((k₀, l₀) :: tl) r = (k₀, l₀) :: eraseA tl r := by
        simp [eraseA, hk]
      rw [he]
      have hih := ih h2 hl
      simp only [pendingCbCount, List.map_cons, List.sum_cons]
      simp only [pendingCbCount] at hih
      omega

theorem pendingCbCount_scanInsert (aw : List (Int × List Callback)) (k : Int)
    (cb : Callback) (pid : Nat) :
    pendingCbCount (insertA aw k ((lookupA aw k).getD [] ++ [cb])) pid
      = pendingCbCount aw pid + countCbsIn [cb] pid := by
  induction aw with
  | nil => simp [lookupA, insertA, pendingCbCount, countCbsIn]
  | cons hd tl ih =>
    obtain ⟨k₀, l₀⟩ := hd
    by_cases hk : k₀ = k
    · subst hk
      have h1 : lookupA ((k₀, l₀) :: tl) k₀ = some l₀ := by simp [lookupA]
      have h2 : insertA ((k₀, l₀) :: tl) k₀ (l₀ ++ [cb]) = (k₀, l₀ ++ [cb]) :: tl := by
        simp [insertA]
      rw [h1, Option.getD_some, h2]
      simp only [pendingCbCount, List.map_cons, List.sum_cons, countCbsIn_append]
      omega
    · have h1 : lookupA ((k₀, l₀) :: tl) k = lookupA tl k := by simp [lookupA, hk]
      have h2 : insertA ((k₀, l₀) :: tl) k ((lookupA tl k).getD [] ++ [cb])
          = (k₀, l₀) :: insertA tl k ((lookupA tl k).getD [] ++ [cb]) := by
        simp [insertA, hk]
      rw [h1, h2]
      simp only [pendingCbCount, List.map_cons, List.sum_cons]
      have hih := ih
      simp only [pendingCbCount] at hih
      omega

theorem countCbsIn_cons (cb : Callback) (l : List Callback) (pid : Nat) :
    countCbsIn (cb :: l) pid = (if cb.pid = pid then 1 else 0) + countCbsIn l pid := by
  by_cases h : cb.pid = pid
  · simp [countCbsIn, List.filter_cons, h, Nat.add_comm]
  · simp [countCbsIn, List.filter_cons, h]

theorem lookupA_insertA_ne_none {K V : Type} [DecidableEq K] {l : List (K × V)}
    {k k' : K} {v : V} (h : lookupA l k' ≠ none) :
    lookupA (insertA l k v) k' ≠ none := by
  rcases eq_or_ne k k' with rfl | hne
  · rw [lookupA_insertA_self]
    simp
  · rwa [lookupA_insertA_ne _ _ _ _ hne]

theorem getElem?_set_same {α : Type} {l : List α} {i : Nat} {p : α} (h : l[i]? = some p)
    (q : α) : (l.set i q)[i]? = some q := by
  have hlt := (List.getElem?_eq_some.mp h).1
  simp [List.getElem?_set_self, hlt]

/-! ## Preservation of the resolver invariant -/

/-- Registering a fresh type with no awaiting callbacks preserves the
invariant. -/
theorem WFI_insert_noawait {st : EngineState} {L : List Callback} {r : Int} {t : RType}
    (_hfresh : lookupA st.registeredTypes r = none)
    (haw : lookupA st.awaitingDependencies r = none)
    (hw : WFI st L) :
    WFI { st with registeredTypes := insertA st.registeredTypes r t,
                  typeDependencies := eraseA st.typeDependencies r } L := by
  obtain ⟨hc, hdok⟩ := hw
  refine ⟨⟨hc.keys, ?_, ?_, hc.cnt, ?_, hc.ginv⟩, hdok⟩
  · intro d l hl cb hcb
    obtain ⟨hd1, hd2⟩ := hc.aw d l hl cb hcb
    refine ⟨?_, hd2⟩
    have hdr : r ≠ d := by
      intro hrd
      rw [hrd] at haw
      rw [haw] at hl
      cases hl
    rw [lookupA_insertA_ne _ _ _ _ hdr]
    exact hd1
  · intro cb hcb
    obtain ⟨p, d, h1, h2, h3⟩ := hc.infl cb hcb
    exact ⟨p, d, h1, h2, lookupA_insertA_ne_none h3⟩
  · intro pid p hp i d hid hnaw hnL
    exact lookupA_insertA_ne_none (hc.frontier pid p hp i d hid hnaw hnL)

/-- Registering a fresh type whose awaiting callbacks are drained into the
in-flight list preserves the invariant. -/
theorem WFI_insert_drain {st : EngineState} {L : List Callback} {r : Int} {t : RType}
    {cbs : List Callback}
    (hfresh : lookupA st.registeredTypes r = none)
    (haw : lookupA st.awaitingDependencies r = some cbs)
    (hw : WFI st L) :
    WFI { st with registeredTypes := insertA st.registeredTypes r t,
                  typeDependencies := eraseA st.typeDependencies r,
                  awaitingDependencies := eraseA st.awaitingDependencies r }
      (cbs ++ L) := by
  obtain ⟨hc, hdok⟩ := hw
  refine ⟨⟨keysNodup_eraseA hc.keys, ?_, ?_, ?_, ?_, hc.ginv⟩, hdok⟩
  · intro d l hl cb hcb
    have hdr : d ≠ r := by
      intro hrd
      rw [hrd, lookupA_eraseA_self] at hl
      cases hl
    rw [lookupA_eraseA_ne _ _ _ (fun h => hdr h.symm)] at hl
    obtain ⟨hd1, hd2⟩ := hc.aw d l hl cb hcb
    refine ⟨?_, hd2⟩
    rw [lookupA_insertA_ne _ _ _ _ (fun h => hdr h.symm)]
    exact hd1
  · intro cb hcb
    rcases List.mem_append.mp hcb with hcb | hcb
    · obtain ⟨hd1, p, hp, hpd⟩ := hc.aw r cbs haw cb hcb
      refine ⟨p, r, hp, hpd, ?_⟩
      rw [lookupA_insertA_self]
      simp
    · obtain ⟨p, d, h1, h2, h3⟩ := hc.infl cb hcb
      exact ⟨p, d, h1, h2, lookupA_insertA_ne_none h3⟩
  · intro pid p hp
    dsimp only
    have hcnt := hc.cnt pid p hp
    have herase := @pendingCbCount_eraseA _ _ _ pid hc.keys haw
    rw [countCbsIn_append]
    omega
  · intro pid p hp i d hid hnaw hnL
    have hnc : (⟨pid, i⟩ : Callback) ∉ cbs := fun hmem =>
      hnL (List.mem_append.mpr (Or.inl hmem))
    have hnl : (⟨pid, i⟩ : Callback) ∉ L := fun hmem =>
      hnL (List.mem_append.mpr (Or.inr hmem))
    have hoaw : ∀ d' l, lookupA st.awaitingDependencies d' = some l →
        (⟨pid, i⟩ : Callback) ∉ l := by
      intro d' l hdl
      rcases eq_or_ne d' r with rfl | hdr
      · rw [haw] at hdl
        cases hdl
        exact hnc
      · refine hnaw d' l ?_
        rw [lookupA_eraseA_ne _ _ _ (fun h => hdr h.symm)]
        exact hdl
    exact lookupA_insertA_ne_none (hc.frontier pid p hp i d hid hoaw hnl)

/-- One callback firing: writing the converter cell and incrementing the
counter preserves the invariant; when the counter becomes full, the
`onComplete` precondition holds instead. -/
theorem WFI_fire_step {st : EngineState} {L : List Callback} {cb : Callback}
    {p : Pending} {dep : Int}
    (hp : st.pendings[cb.pid]? = some p) (hd : p.deps[cb.idx]? = some dep)
    (hw : WFI st (cb :: L)) :
    (p.registered + 1 ≠ p.unregCount →
      WFI { st with pendings := st.pendings.set cb.pid ({ p with conv := p.conv.set cb.idx (lookupA st.registeredTypes dep), registered := p.registered + 1 }) } L)
    ∧ (p.registered + 1 = p.unregCount →
      WFIexc { st with pendings := st.pendings.set cb.pid ({ p with conv := p.conv.set cb.idx (lookupA st.registeredTypes dep), registered := p.registered + 1 }) } L cb.pid
      ∧ AllDepsReg { st with pendings := st.pendings.set cb.pid ({ p with conv := p.conv.set cb.idx (lookupA st.registeredTypes dep), registered := p.registered + 1 }) } cb.pid) := by
  obtain ⟨hc, hdok⟩ := hw
  set p1 : Pending :=
    { p with conv := p.conv.set cb.idx (lookupA st.registeredTypes dep),
             registered := p.registered + 1 } with hp1
  set st1 : EngineState := { st with pendings := st.pendings.set cb.pid p1 } with hst1
  have hpek : st1.pendings[cb.pid]? = some p1 := getElem?_set_same hp p1
  have hpne : ∀ pid' : Nat, pid' ≠ cb.pid → st1.pendings[pid']? = st.pendings[pid']? := by
    intro pid' hne
    exact List.getElem?_set_ne (fun h => hne h.symm)
  have hdepreg : lookupA st.registeredTypes dep ≠ none := by
    obtain ⟨q, dq, h1, h2, h3⟩ := hc.infl cb (List.mem_cons_self _ _)
    rw [hp] at h1
    cases h1
    rw [hd] at h2
    cases h2
    exact h3
  have hcnt0 := hc.cnt cb.pid p hp
  rw [countCbsIn_cons, if_pos rfl] at hcnt0
  have hinv0 : p.invoked = 0 := by
    have := hdok cb.pid p hp
    rw [DOk] at this
    rw [this, if_neg]
    omega
  have hcore : WFICore st1 L := by
    refine ⟨hc.keys, ?_, ?_, ?_, ?_, ?_⟩
    · intro d l hl cb' hcb'
      obtain ⟨hreg, q, hq, hqd⟩ := hc.aw d l hl cb' hcb'
      refine ⟨hreg, ?_⟩
      rcases eq_or_ne cb'.pid cb.pid with hpp | hpp
      · rw [hpp] at hq
        rw [hp] at hq
        cases hq
        refine ⟨p1, ?_, hqd⟩
        rw [hpp]
        exact hpek
      · exact ⟨q, (hpne cb'.pid hpp).symm ▸ hq, hqd⟩
    · intro cb' hcb'
      obtain ⟨q, dq, h1, h2, h3⟩ := hc.infl cb' (List.mem_cons_of_mem _ hcb')
      rcases eq_or_ne cb'.pid cb.pid with hpp | hpp
      · rw [hpp] at h1
        rw [hp] at h1
        cases h1
        refine ⟨p1, dq, ?_, h2, h3⟩
        rw [hpp]
        exact hpek
      · exact ⟨q, dq, (hpne cb'.pid hpp).symm ▸ h1, h2, h3⟩
    · intro pid' q hq
      rcases eq_or_ne pid' cb.pid with hpp | hpp
      · subst hpp
        rw [hpek] at hq
        cases hq
        show p1.registered + pendingCbCount st.awaitingDependencies cb.pid
          + countCbsIn L cb.pid = p1.unregCount
        have h2 : p1.registered = p.registered + 1 := rfl
        have hu : p1.unregCount = p.unregCount := rfl
        omega
      · rw [hpne pid' hpp] at hq
        have := hc.cnt pid' q hq
        rw [countCbsIn_cons, if_neg (fun h => hpp h.symm)] at this
        show q.registered + pendingCbCount st.awaitingDependencies pid'
          + countCbsIn L pid' = q.unregCount
        omega
    · intro pid' q hq i d hid hnaw hnL'
      show lookupA st.registeredTypes d ≠ none
      rcases eq_or_ne pid' cb.pid with hpp | hpp
      · subst hpp
        rw [hpek] at hq
        cases hq
        rcases eq_or_ne i cb.idx with hii | hii
        · subst hii
          have hdd : p.deps[cb.idx]? = some d := hid
          rw [hd] at hdd
          cases hdd
          exact hdepreg
        · have hne : (⟨cb.pid, i⟩ : Callback) ≠ cb := by
            intro h
            exact hii (congrArg Callback.idx h)
          refine hc.frontier cb.pid p hp i d hid hnaw ?_
          intro hmem
          rcases List.mem_cons.mp hmem with h | h
          · exact hne h
          · exact hnL' h
      · rw [hpne pid' hpp] at hq
        have hne : (⟨pid', i⟩ : Callback) ≠ cb := by
          intro h
          exact hpp (congrArg Callback.pid h)
        refine hc.frontier pid' q hq i d hid hnaw ?_
        intro hmem
        rcases List.mem_cons.mp hmem with h | h
        · exact hne h
        · exact hnL' h
    · intro pid' q hq
      rcases eq_or_ne pid' cb.pid with hpp | hpp
      · subst hpp
        rw [hpek] at hq
        cases hq
        exact hc.ginv cb.pid p hp
      · rw [hpne pid' hpp] at hq
        exact hc.ginv pid' q hq
  constructor
  · intro hne
    refine ⟨hcore, ?_⟩
    intro pid' q hq
    rcases eq_or_ne pid' cb.pid with hpp | hpp
    · subst hpp
      rw [hpek] at hq
      cases hq
      show p1.invoked = if p1.registered = p1.unregCount then 1 else 0
      have h1 : p1.invoked = p.invoked := rfl
      have h2 : p1.registered = p.registered + 1 := rfl
      have h3 : p1.unregCount = p.unregCount := rfl
      rw [h1, h2, h3, hinv0, if_neg hne]
    · rw [hpne pid' hpp] at hq
      exact hdok pid' q hq
  · intro heq
    have hzero : pendingCbCount st.awaitingDependencies cb.pid = 0
        ∧ countCbsIn L cb.pid = 0 := by
      constructor <;> omega
    refine ⟨⟨hcore, ?_, ?_⟩, ?_⟩
    · intro pid' q hq hpp
      rw [hpne pid' hpp] at hq
      exact hdok pid' q hq
    · intro q hq
      rw [hpek] at hq
      cases hq
      exact ⟨hinv0, heq⟩
    · intro q hq d hdm
      rw [hpek] at hq
      cases hq
      have hdm' : d ∈ p.deps := hdm
      obtain ⟨i, hi⟩ := List.mem_iff_getElem?.mp hdm'
      refine hcore.frontier cb.pid p1 hpek i d hi ?_ ?_
      · intro d' l hdl hmem
        have hml := lookupA_mem hdl
        have := pendingCbCount_eq_zero.mp hzero.1 (d', l) hml
        have h2 := countCbsIn_eq_zero.mp this _ hmem
        exact h2 rfl
      · intro hmem
        have := countCbsIn_eq_zero.mp hzero.2 _ hmem
        exact this rfl

/-- Running `onComplete`'s instrumentation (counting the invocation and
recording that every dependency is registered) restores the full
invariant from the `onComplete` precondition. -/
theorem WFI_complete_step {st : EngineState} {L : List Callback} {pid : Nat} {p : Pending}
    (hp : st.pendings[pid]? = some p)
    (he : WFIexc st L pid) (ha : AllDepsReg st pid) :
    WFI { st with pendings := st.pendings.set pid ({ p with invoked := p.invoked + 1, allInvocationsAllReg := p.allInvocationsAllReg && p.deps.all fun d => (lookupA st.registeredTypes d).isSome }) } L := by
  obtain ⟨hc, hdok, hexc⟩ := he
  set p' : Pending :=
    { p with invoked := p.invoked + 1,
             allInvocationsAllReg := p.allInvocationsAllReg
               && p.deps.all fun d => (lookupA st.registeredTypes d).isSome } with hp'
  set st1 : EngineState := { st with pendings := st.pendings.set pid p' } with hst1
  have hpek : st1.pendings[pid]? = some p' := getElem?_set_same hp p'
  have hpne : ∀ pid' : Nat, pid' ≠ pid → st1.pendings[pid']? = st.pendings[pid']? := by
    intro pid' hne
    exact List.getElem?_set_ne (fun h => hne h.symm)
  obtain ⟨hinv0, hregfull⟩ := hexc p hp
  have hall : (p.deps.all fun d => (lookupA st.registeredTypes d).isSome) = true := by
    refine List.all_eq_true.mpr ?_
    intro d hdm
    exact Option.isSome_iff_ne_none.mpr (ha p hp d hdm)
  refine ⟨⟨hc.keys, ?_, ?_, ?_, ?_, ?_⟩, ?_⟩
  · intro d l hl cb' hcb'
    obtain ⟨hreg, q, hq, hqd⟩ := hc.aw d l hl cb' hcb'
    refine ⟨hreg, ?_⟩
    rcases eq_or_ne cb'.pid pid with hpp | hpp
    · rw [hpp] at hq
      rw [hp] at hq
      cases hq
      refine ⟨p', ?_, hqd⟩
      rw [hpp]
      exact hpek
    · exact ⟨q, (hpne cb'.pid hpp).symm ▸ hq, hqd⟩
  · intro cb' hcb'
    obtain ⟨q, dq, h1, h2, h3⟩ := hc.infl cb' hcb'
    rcases eq_or_ne cb'.pid pid with hpp | hpp
    · rw [hpp] at h1
      rw [hp] at h1
      cases h1
      refine ⟨p', dq, ?_, h2, h3⟩
      rw [hpp]
      exact hpek
    · exact ⟨q, dq, (hpne cb'.pid hpp).symm ▸ h1, h2, h3⟩
  · intro pid' q hq
    rcases eq_or_ne pid' pid with hpp | hpp
    · subst hpp
      rw [hpek] at hq
      cases hq
      exact hc.cnt pid' p hp
    · rw [hpne pid' hpp] at hq
      exact hc.cnt pid' q hq
  · intro pid' q hq i d hid hnaw hnL'
    rcases eq_or_ne pid' pid with hpp | hpp
    · subst hpp
      rw [hpek] at hq
      cases hq
      exact hc.frontier pid' p hp i d hid hnaw hnL'
    · rw [hpne pid' hpp] at hq
      exact hc.frontier pid' q hq i d hid hnaw hnL'
  · intro pid' q hq
    rcases eq_or_ne pid' pid with hpp | hpp
    · subst hpp
      rw [hpek] at hq
      cases hq
      show (p.allInvocationsAllReg
        && p.deps.all fun d => (lookupA st.registeredTypes d).isSome) = true
      rw [hc.ginv pid' p hp, hall]
      rfl
    · rw [hpne pid' hpp] at hq
      exact hc.ginv pid' q hq
  · intro pid' q hq
    rcases eq_or_ne pid' pid with hpp | hpp
    · subst hpp
      rw [hpek] at hq
      cases hq
      show p.invoked + 1 = if p.registered = p.unregCount then 1 else 0
      rw [hinv0, if_pos hregfull]
    · rw [hpne pid' hpp] at hq
      exact hdok pid' q hq hpp

/-- The registration cascade preserves the resolver invariant (stated for
successful executions; `L` collects the drained callbacks still in flight
in enclosing drain loops). -/
theorem cascade_WFI (fuel : Nat) :
    (∀ st st' r t o L, registerTypeF fuel st r t o = (st', none) → WFI st L → WFI st' L)
    ∧ (∀ st st' cbs L, runCallbacks fuel st cbs = (st', none) →
        WFI st (cbs ++ L) → WFI st' L)
    ∧ (∀ st st' cb L, fireCallback fuel st cb = (st', none) →
        WFI st (cb :: L) → WFI st' L)
    ∧ (∀ st st' pid L, completePending fuel st pid = (st', none) →
        WFIexc st L pid → AllDepsReg st pid → WFI st' L)
    ∧ (∀ st st' l L, registerEach fuel st l = (st', none) → WFI st L → WFI st' L) := by
  induction fuel with
  | zero =>
    refine ⟨?_, ?_, ?_, ?_, ?_⟩
    · intro st st' r t o L h hw
      simp [registerTypeF] at h
    · intro st st' cbs L h hw
      cases cbs with
      | nil =>
        simp [runCallbacks] at h
        rw [← h]
        simpa using hw
      | cons cb rest => simp [runCallbacks] at h
    · intro st st' cb L h hw
      simp [fireCallback] at h
    · intro st st' pid L h he ha
      simp [completePending] at h
    · intro st st' l L h hw
      cases l with
      | nil =>
        simp [registerEach] at h
        rw [← h]
        exact hw
      | cons hd rest => simp [registerEach] at h
  | succ fuel ih =>
    obtain ⟨ihReg, ihRun, ihFire, ihComplete, ihEach⟩ := ih
    refine ⟨?_, ?_, ?_, ?_, ?_⟩
    · intro st st' r t o L h hw
      by_cases hr : r = 0
      · simp [registerTypeF, hr] at h
      · cases hlook : lookupA st.registeredTypes r with
        | some u =>
          cases o with
          | none => simp [registerTypeF, hr, hlook] at h
          | some oo =>
            by_cases hig : oo.ignoreDuplicateRegistrations
            · simp [registerTypeF, hr, hlook, hig] at h
              rw [← h]
              exact hw
            · simp [registerTypeF, hr, hlook, hig] at h
        | none =>
          cases haw : lookupA st.awaitingDependencies r with
          | none =>
            have hred : registerTypeF (fuel + 1) st r t o
                = ({ st with registeredTypes := insertA st.registeredTypes r t,
                             typeDependencies := eraseA st.typeDependencies r }, none) := by
              simp [registerTypeF, hr, hlook, haw]
            rw [hred] at h
            injection h with h1 h2
            rw [← h1]
            exact WFI_insert_noawait hlook haw hw
          | some cbs =>
            have hred : registerTypeF (fuel + 1) st r t o
                = runCallbacks fuel
                    { st with registeredTypes := insertA st.registeredTypes r t,
                              typeDependencies := eraseA st.typeDependencies r,
                              awaitingDependencies := eraseA st.awaitingDependencies r }
                    cbs := by
              simp [registerTypeF, hr, hlook, haw]
            rw [hred] at h
            exact ihRun _ st' cbs L h (WFI_insert_drain hlook haw hw)
    · intro st st' cbs L h hw
      cases cbs with
      | nil =>
        simp [runCallbacks] at h
        rw [← h]
        simpa using hw
      | cons cb rest =>
        cases hf : fireCallback fuel st cb with
        | mk stf e =>
          cases e with
          | none =>
            simp only [runCallbacks, hf] at h
            have hw1 : WFI st (cb :: (rest ++ L)) := by simpa using hw
            exact ihRun stf st' rest L h (ihFire st stf cb (rest ++ L) hf hw1)
          | some e0 =>
            simp only [runCallbacks, hf] at h
            simp at h
    · intro st st' cb L h hw
      cases hp : st.pendings[cb.pid]? with
      | none =>
        exfalso
        obtain ⟨q, dq, h1, _, _⟩ := hw.1.infl cb (List.mem_cons_self _ _)
        rw [hp] at h1
        cases h1
      | some p =>
        cases hd : p.deps[cb.idx]? with
        | none =>
          exfalso
          obtain ⟨q, dq, h1, h2, _⟩ := hw.1.infl cb (List.mem_cons_self _ _)
          rw [hp] at h1
          cases h1
          rw [hd] at h2
          cases h2
        | some dep =>
          have hstep := WFI_fire_step hp hd hw
          by_cases heq : p.registered + 1 = p.unregCount
          · have hred : fireCallback (fuel + 1) st cb
                = completePending fuel { st with pendings := st.pendings.set cb.pid ({ p with conv := p.conv.set cb.idx (lookupA st.registeredTypes dep), registered := p.registered + 1 }) } cb.pid := by
              simp only [fireCallback, hp, hd]
              rw [if_pos heq]
            rw [hred] at h
            exact ihComplete _ st' cb.pid L h (hstep.2 heq).1 (hstep.2 heq).2
          · have hred : fireCallback (fuel + 1) st cb
                = ({ st with pendings := st.pendings.set cb.pid ({ p with conv := p.conv.set cb.idx (lookupA st.registeredTypes dep), registered := p.registered + 1 }) }, none) := by
              simp only [fireCallback, hp, hd]
              rw [if_neg heq]
            rw [hred] at h
            injection h with h1 h2
            rw [← h1]
            exact hstep.1 heq
    · intro st st' pid L h he ha
      cases hp : st.pendings[pid]? with
      | none =>
        have hred : completePending (fuel + 1) st pid = (st, none) := by
          simp [completePending, hp]
        rw [hred] at h
        injection h with h1 h2
        rw [← h1]
        refine ⟨he.1, ?_⟩
        intro pid' q hq
        by_cases hpp : pid' = pid
        · rw [hpp, hp] at hq
          cases hq
        · exact he.2.1 pid' q hq hpp
      | some p =>
        cases hprod : p.produce p.conv with
        | error e0 =>
          have hred : completePending (fuel + 1) st pid
              = ({ st with pendings := st.pendings.set pid ({ p with invoked := p.invoked + 1, allInvocationsAllReg := p.allInvocationsAllReg && p.deps.all fun d => (lookupA st.registeredTypes d).isSome }) }, some e0) := by
            simp only [completePending, hp, hprod]
          rw [hred] at h
          simp at h
        | ok mc =>
          by_cases hlen : mc.length = p.myTypes.length
          · have hred : completePending (fuel + 1) st pid
                = registerEach fuel { st with pendings := st.pendings.set pid ({ p with invoked := p.invoked + 1, allInvocationsAllReg := p.allInvocationsAllReg && p.deps.all fun d => (lookupA st.registeredTypes d).isSome }) } (p.myTypes.zip mc) := by
              simp only [completePending, hp, hprod]
              rw [if_neg (fun hc => hc hlen)]
            rw [hred] at h
            exact ihEach _ st' (p.myTypes.zip mc) L h (WFI_complete_step hp he ha)
          · have hred : completePending (fuel + 1) st pid
                = ({ st with pendings := st.pendings.set pid ({ p with invoked := p.invoked + 1, allInvocationsAllReg := p.allInvocationsAllReg && p.deps.all fun d => (lookupA st.registeredTypes d).isSome }) }, some .mismatchedTypeConverterCount) := by
              simp only [completePending, hp, hprod]
              rw [if_pos hlen]
            rw [hred] at h
            simp at h
    · intro st st' l L h hw
      cases l with
      | nil =>
        simp [registerEach] at h
        rw [← h]
        exact hw
      | cons hd rest =>
        obtain ⟨r, t⟩ := hd
        cases hf : registerTypeF fuel st r t none with
        | mk stf e =>
          cases e with
          | none =>
            simp only [registerEach, hf] at h
            exact ihEach stf st' rest L h (ihReg st stf r t none L hf hw)
          | some e0 =>
            simp only [registerEach, hf] at h
            simp at h

theorem pendStable_refl (st : EngineState) : PendStable st st :=
  fun _ p hp => ⟨p, hp, rfl, rfl, rfl, rfl⟩

theorem pendStable_trans {a b c : EngineState}
    (h1 : PendStable a b) (h2 : PendStable b c) : PendStable a c := by
  intro pid p hp
  obtain ⟨p', hp', d1, d2, d3, d4⟩ := h1 pid p hp
  obtain ⟨p'', hp'', e1, e2, e3, e4⟩ := h2 pid p' hp'
  exact ⟨p'', hp'', e1.trans d1, e2.trans d2, e3.trans d3, e4.trans d4⟩

theorem pendStable_of_eq {st st' : EngineState} (h : st'.pendings = st.pendings) :
    PendStable st st' := by
  intro pid p hp
  refine ⟨p, ?_, rfl, rfl, rfl, rfl⟩
  rw [h]
  exact hp

theorem pendStable_set {st : EngineState} {pid₀ : Nat} {p₀ q : Pending}
    (hp : st.pendings[pid₀]? = some p₀)
    (h1 : q.deps = p₀.deps) (h2 : q.myTypes = p₀.myTypes)
    (h3 : q.unregCount = p₀.unregCount) (h4 : q.produce = p₀.produce) :
    PendStable st { st with pendings := st.pendings.set pid₀ q } := by
  intro pid p hp'
  by_cases hpp : pid = pid₀
  · subst hpp
    rw [hp] at hp'
    cases hp'
    exact ⟨q, getElem?_set_same hp q, h1, h2, h3, h4⟩
  · refine ⟨p, ?_, rfl, rfl, rfl, rfl⟩
    show (st.pendings.set pid₀ q)[pid]? = some p
    rw [List.getElem?_set_ne (fun h => hpp h.symm)]
    exact hp'

/-- No function of the registration cascade removes a pending record or
changes its immutable fields. -/
theorem cascade_pendStable (fuel : Nat) :
    (∀ st r t o, PendStable st (registerTypeF fuel st r t o).1)
    ∧ (∀ st cbs, PendStable st (runCallbacks fuel st cbs).1)
    ∧ (∀ st cb, PendStable st (fireCallback fuel st cb).1)
    ∧ (∀ st pid, PendStable st (completePending fuel st pid).1)
    ∧ (∀ st l, PendStable st (registerEach fuel st l).1) := by
  induction fuel with
  | zero =>
    refine ⟨?_, ?_, ?_, ?_, ?_⟩
    · intro st r t o; exact pendStable_refl st
    · intro st cbs
      cases cbs with
      | nil => exact pendStable_refl st
      | cons cb rest => exact pendStable_refl st
    · intro st cb; exact pendStable_refl st
    · intro st pid; exact pendStable_refl st
    · intro st l
      cases l with
      | nil => exact pendStable_refl st
      | cons hd rest => exact pendStable_refl st
  | succ fuel ih =>
    obtain ⟨ihReg, ihRun, ihFire, ihComplete, ihEach⟩ := ih
    refine ⟨?_, ?_, ?_, ?_, ?_⟩
    · intro st r t o
      by_cases hr : r = 0
      · simp [registerTypeF, hr, pendStable_refl]
      · cases hlook : lookupA st.registeredTypes r with
        | some u =>
          cases o with
          | none => simp [registerTypeF, hr, hlook, pendStable_refl]
          | some oo =>
            by_cases hig : oo.ignoreDuplicateRegistrations <;>
              simp [registerTypeF, hr, hlook, hig, pendStable_refl]
        | none =>
          cases haw : lookupA st.awaitingDependencies r with
          | none =>
            simp only [registerTypeF, hr, if_false, hlook, haw]
            exact pendStable_of_eq rfl
          | some cbs =>
            simp only [registerTypeF, hr, if_false, hlook, haw]
            refine pendStable_trans ?_ (ihRun _ cbs)
            exact pendStable_of_eq rfl
    · intro st cbs
      cases cbs with
      | nil => exact pendStable_refl st
      | cons cb rest =>
        cases hf : fireCallback fuel st cb with
        | mk stf e =>
          have h1 : PendStable st stf := by
            have := ihFire st cb; rw [hf] at this; exact this
          cases e with
          | none =>
            simp only [runCallbacks, hf]
            exact pendStable_trans h1 (ihRun stf rest)
          | some err =>
            simp only [runCallbacks, hf]
            exact h1
    · intro st cb
      cases hp : st.pendings[cb.pid]? with
      | none => simp [fireCallback, hp, pendStable_refl]
      | some p =>
        cases hd : p.deps[cb.idx]? with
        | none => simp [fireCallback, hp, hd, pendStable_refl]
        | some dep =>
          simp only [fireCallback, hp, hd]
          split
          · refine pendStable_trans ?_ (ihComplete _ cb.pid)
            exact pendStable_set hp rfl rfl rfl rfl
          · exact pendStable_set hp rfl rfl rfl rfl
    · intro st pid
      cases hp : st.pendings[pid]? with
      | none => simp [completePending, hp, pendStable_refl]
      | some p =>
        simp only [completePending, hp]
        split
        · exact pendStable_set hp rfl rfl rfl rfl
        · split
          · exact pendStable_set hp rfl rfl rfl rfl
          · refine pendStable_trans ?_ (ihEach _ _)
            exact pendStable_set hp rfl rfl rfl rfl
    · intro st l
      cases l with
      | nil => exact pendStable_refl st
      | cons hd rest =>
        obtain ⟨r, t⟩ := hd
        cases hf : registerTypeF fuel st r t none with
        | mk stf e =>
          have h1 : PendStable st stf := by
            have := ihReg st r t none; rw [hf] at this; exact this
          cases e with
          | none =>
            simp only [registerEach, hf]
            exact pendStable_trans h1 (ihEach stf rest)
          | some err =>
            simp only [registerEach, hf]
            exact h1

/-- Characterization of the dependency-scan loop of
`whenDependentTypesAreResolved`: it leaves keys distinct, adds exactly one
callback per unregistered dependency (all for pending `pid`), preserves
every previously queued callback, adds nothing else, and leaves every
dependency either registered or with its callback queued. -/
theorem wdtarScan_spec (reg : List (Int × RType)) (pid : Nat) :
    ∀ (deps : List Int) (i₀ : Nat) (aw : List (Int × List Callback)),
      (keysNodup aw → keysNodup (wdtarScan reg pid deps i₀ aw).2.2)
      ∧ (∀ pid' : Nat, pid' ≠ pid →
          pendingCbCount (wdtarScan reg pid deps i₀ aw).2.2 pid'
            = pendingCbCount aw pid')
      ∧ (pendingCbCount (wdtarScan reg pid deps i₀ aw).2.2 pid
          = pendingCbCount aw pid + (wdtarScan reg pid deps i₀ aw).2.1)
      ∧ (∀ (d : Int) (l : List Callback) (cb : Callback),
          lookupA aw d = some l → cb ∈ l →
          ∃ l', lookupA (wdtarScan reg pid deps i₀ aw).2.2 d = some l' ∧ cb ∈ l')
      ∧ (∀ (d : Int) (l : List Callback) (cb : Callback),
          lookupA (wdtarScan reg pid deps i₀ aw).2.2 d = some l → cb ∈ l →
          (∃ l₀, lookupA aw d = some l₀ ∧ cb ∈ l₀)
          ∨ (cb.pid = pid ∧ lookupA reg d = none
              ∧ ∃ j : Nat, deps[j]? = some d ∧ cb.idx = i₀ + j))
      ∧ (∀ (j : Nat) (d : Int), deps[j]? = some d → lookupA reg d ≠ none
          ∨ ∃ l, lookupA (wdtarScan reg pid deps i₀ aw).2.2 d = some l
              ∧ (⟨pid, i₀ + j⟩ : Callback) ∈ l) := by
  intro deps
  induction deps with
  | nil =>
    intro i₀ aw
    refine ⟨fun h => h, fun _ _ => rfl, by simp [wdtarScan], ?_, ?_, ?_⟩
    · intro d l cb hl hcb
      exact ⟨l, hl, hcb⟩
    · intro d l cb hl hcb
      exact Or.inl ⟨l, hl, hcb⟩
    · intro j d hj
      simp at hj
  | cons dt rest ih =>
    intro i₀ aw
    cases hreg : lookupA reg dt with
    | some t =>
      have haw2 : (wdtarScan reg pid (dt :: rest) i₀ aw).2.2
          = (wdtarScan reg pid rest (i₀ + 1) aw).2.2 := by
        simp [wdtarScan, hreg]
      have hun : (wdtarScan reg pid (dt :: rest) i₀ aw).2.1
          = (wdtarScan reg pid rest (i₀ + 1) aw).2.1 := by
        simp [wdtarScan, hreg]
      obtain ⟨s1, s2, s3, s4, s5, s6⟩ := ih (i₀ + 1) aw
      rw [haw2, hun]
      refine ⟨s1, s2, s3, s4, ?_, ?_⟩
      · intro d l cb hl hcb
        rcases s5 d l cb hl hcb with h | ⟨hpid, hrn, j, hj, hidx⟩
        · exact Or.inl h
        · refine Or.inr ⟨hpid, hrn, j + 1, ?_, ?_⟩
          · simpa using hj
          · omega
      · intro j d hj
        cases j with
        | zero =>
          simp at hj
          subst hj
          left
          rw [hreg]
          simp
        | succ j' =>
          simp at hj
          rcases s6 j' d hj with h | ⟨l, hl, hcb⟩
          · exact Or.inl h
          · refine Or.inr ⟨l, hl, ?_⟩
            have : i₀ + (j' + 1) = i₀ + 1 + j' := by omega
            rw [this]
            exact hcb
    | none =>
      have haw2 : (wdtarScan reg pid (dt :: rest) i₀ aw).2.2
          = (wdtarScan reg pid rest (i₀ + 1)
              (insertA aw dt ((lookupA aw dt).getD [] ++ [⟨pid, i₀⟩]))).2.2 := by
        simp [wdtarScan, hreg]
      have hun : (wdtarScan reg pid (dt :: rest) i₀ aw).2.1
          = (wdtarScan reg pid rest (i₀ + 1)
              (insertA aw dt ((lookupA aw dt).getD [] ++ [⟨pid, i₀⟩]))).2.1 + 1 := by
        simp [wdtarScan, hreg]
      obtain ⟨s1, s2, s3, s4, s5, s6⟩ :=
        ih (i₀ + 1) (insertA aw dt ((lookupA aw dt).getD [] ++ [⟨pid, i₀⟩]))
      rw [haw2, hun]
      have hcnew : ∀ pid' : Nat, countCbsIn [(⟨pid, i₀⟩ : Callback)] pid'
          = if pid = pid' then 1 else 0 := by
        intro pid'
        by_cases h : pid = pid'
        · simp [countCbsIn, h]
        · simp [countCbsIn, h]
      refine ⟨?_, ?_, ?_, ?_, ?_, ?_⟩
      · intro hk
        exact s1 (keysNodup_insertA hk)
      · intro pid' hne
        rw [s2 pid' hne, pendingCbCount_scanInsert, hcnew pid',
          if_neg (fun h => hne h.symm)]
        omega
      · rw [s3, pendingCbCount_scanInsert, hcnew pid, if_pos rfl]
        omega
      · intro d l cb hl hcb
        by_cases hd : d = dt
        · subst hd
          refine s4 d (l ++ [⟨pid, i₀⟩]) cb ?_ (List.mem_append.mpr (Or.inl hcb))
          rw [hl]
          simp [lookupA_insertA_self]
        · refine s4 d l cb ?_ hcb
          rw [lookupA_insertA_ne _ _ _ _ (fun h => hd h.symm)]
          exact hl
      · intro d l cb hl hcb
        rcases s5 d l cb hl hcb with ⟨l₀, hl₀, hcb₀⟩ | ⟨hpid, hrn, j, hj, hidx⟩
        · by_cases hd : d = dt
          · subst hd
            rw [lookupA_insertA_self] at hl₀
            cases hl₀
            rcases List.mem_append.mp hcb₀ with h | h
            · cases hold : lookupA aw d with
              | none =>
                rw [hold] at h
                simp at h
              | some lold =>
                rw [hold] at h
                exact Or.inl ⟨lold, rfl, by simpa using h⟩
            · simp at h
              refine Or.inr ⟨?_, hreg, 0, by simp, ?_⟩
              · simp [h]
              · simp [h]
          · rw [lookupA_insertA_ne _ _ _ _ (fun h => hd h.symm)] at hl₀
            exact Or.inl ⟨l₀, hl₀, hcb₀⟩
        · refine Or.inr ⟨hpid, hrn, j + 1, by simpa using hj, by omega⟩
      · intro j d hj
        cases j with
        | zero =>
          simp at hj
          subst hj
          right
          have hself : lookupA (insertA aw dt ((lookupA aw dt).getD [] ++ [⟨pid, i₀⟩])) dt
              = some ((lookupA aw dt).getD [] ++ [⟨pid, i₀⟩]) := lookupA_insertA_self _ _ _
          obtain ⟨l', hl', hcb'⟩ := s4 dt _ ⟨pid, i₀⟩ hself
            (List.mem_append.mpr (Or.inr (by simp)))
          refine ⟨l', hl', ?_⟩
          simpa using hcb'
        | succ j' =>
          simp at hj
          rcases s6 j' d hj with h | ⟨l, hl, hcb⟩
          · exact Or.inl h
          · refine Or.inr ⟨l, hl, ?_⟩
            have : i₀ + (j' + 1) = i₀ + 1 + j' := by omega
            rw [this]
            exact hcb

/-- After `whenDependentTypesAreResolved` records its pending call, the
invariant holds again — or, when no dependency was unregistered, the
`onComplete` precondition holds for the new pending. -/
theorem wdtar_prep (st : EngineState) (T D : List Int)
    (f : List (Option RType) → Except Err (List RType)) (hw : WFI st [])
    (scan : List (Option RType) × Nat × List (Int × List Callback))
    (hscan : scan = wdtarScan st.registeredTypes st.pendings.length D 0
        st.awaitingDependencies)
    (st1 : EngineState)
    (hst1 : st1 = { st with typeDependencies := T.foldl (fun m t => insertA m t D) st.typeDependencies, awaitingDependencies := scan.2.2, pendings := st.pendings ++ [{ myTypes := T, deps := D, conv := scan.1, registered := 0, unregCount := scan.2.1, produce := f, invoked := 0, allInvocationsAllReg := true }] }) :
    (scan.2.1 ≠ 0 → WFI st1 [])
    ∧ (scan.2.1 = 0 → WFIexc st1 [] st.pendings.length
        ∧ AllDepsReg st1 st.pendings.length) := by
  obtain ⟨hwc, hwd⟩ := hw
  obtain ⟨s1, s2, s3, s4, s5, s6⟩ :=
    wdtarScan_spec st.registeredTypes st.pendings.length D 0 st.awaitingDependencies
  rw [← hscan] at s1 s2 s3 s4 s5 s6
  have hL0 : ∀ pid' : Nat, countCbsIn [] pid' = 0 := by
    intro pid'
    simp [countCbsIn]
  have hfreshcb : ∀ (pid' : Nat) (q : Pending), st.pendings[pid']? = some q →
      pid' ≠ st.pendings.length := by
    intro pid' q hq
    have := (List.getElem?_eq_some.mp hq).1
    omega
  have hawzero : pendingCbCount st.awaitingDependencies st.pendings.length = 0 := by
    refine pendingCbCount_eq_zero.mpr ?_
    intro e he
    refine countCbsIn_eq_zero.mpr ?_
    intro cb hcb
    have hle : lookupA st.awaitingDependencies e.1 = some e.2 :=
      lookupA_of_mem_nodup hwc.keys (by cases e; exact he)
    obtain ⟨_, q, hq, _⟩ := hwc.aw e.1 e.2 hle cb hcb
    exact hfreshcb cb.pid q hq
  have hnew : st1.pendings[st.pendings.length]? = some { myTypes := T, deps := D, conv := scan.1, registered := 0, unregCount := scan.2.1, produce := f, invoked := 0, allInvocationsAllReg := true } := by
    rw [hst1]
    exact List.getElem?_concat_length _ _
  have holdmem : ∀ (pid' : Nat) (q : Pending), st.pendings[pid']? = some q →
      st1.pendings[pid']? = some q := by
    intro pid' q hq
    rw [hst1]
    dsimp only
    rw [List.getElem?_append]
    rw [if_pos (List.getElem?_eq_some.mp hq).1]
    exact hq
  have hmeminv : ∀ (pid' : Nat) (q : Pending), st1.pendings[pid']? = some q →
      pid' ≠ st.pendings.length → st.pendings[pid']? = some q := by
    intro pid' q hq hne
    rw [hst1] at hq
    dsimp only at hq
    have hlen : pid' < st.pendings.length + 1 := by
      have := (List.getElem?_eq_some.mp hq).1
      simpa using this
    have hlt : pid' < st.pendings.length := by omega
    rw [List.getElem?_append] at hq
    rw [if_pos hlt] at hq
    exact hq
  have hawreg : st1.registeredTypes = st.registeredTypes := by rw [hst1]
  have hawaw : st1.awaitingDependencies = scan.2.2 := by rw [hst1]
  have hcore : WFICore st1 [] := by
    refine ⟨?_, ?_, ?_, ?_, ?_, ?_⟩
    · rw [hawaw]
      exact s1 hwc.keys
    · intro d l hl cb hcb
      rw [hawaw] at hl
      rw [hawreg]
      rcases s5 d l cb hl hcb with ⟨l₀, hl₀, hcb₀⟩ | ⟨hpid, hrn, j, hj, hidx⟩
      · obtain ⟨hrn, q, hq, hdep⟩ := hwc.aw d l₀ hl₀ cb hcb₀
        exact ⟨hrn, q, holdmem cb.pid q hq, hdep⟩
      · refine ⟨hrn, ?_⟩
        refine ⟨_, by rw [hpid]; exact hnew, ?_⟩
        show D[cb.idx]? = some d
        rw [hidx, Nat.zero_add]
        exact hj
    · intro cb hcb
      simp at hcb
    · intro pid' q hq
      rw [hawaw, hL0]
      by_cases hpp : pid' = st.pendings.length
      · subst hpp
        rw [hnew] at hq
        cases hq
        show 0 + pendingCbCount scan.2.2 st.pendings.length + 0 = scan.2.1
        rw [s3, hawzero]
        omega
      · have hq0 := hmeminv pid' q hq hpp
        have := hwc.cnt pid' q hq0
        rw [hL0] at this
        rw [s2 pid' hpp]
        omega
    · intro pid' q hq i d hid hnaw hnL
      rw [hawreg]
      by_cases hpp : pid' = st.pendings.length
      · subst hpp
        rw [hnew] at hq
        cases hq
        have hid' : D[i]? = some d := hid
        rcases s6 i d hid' with h | ⟨l, hl, hcb⟩
        · exact h
        · exfalso
          refine hnaw d l (by rw [hawaw]; exact hl) ?_
          have : i = 0 + i := by omega
          rw [this]
          exact hcb
      · have hq0 := hmeminv pid' q hq hpp
        refine hwc.frontier pid' q hq0 i d hid ?_ (by simp)
        intro d' l hdl hmem
        obtain ⟨l', hl', hmem'⟩ := s4 d' l _ hdl hmem
        exact hnaw d' l' (by rw [hawaw]; exact hl') hmem'
    · intro pid' q hq
      by_cases hpp : pid' = st.pendings.length
      · subst hpp
        rw [hnew] at hq
        cases hq
        rfl
      · exact hwc.ginv pid' q (hmeminv pid' q hq hpp)
  have hdokold : ∀ (pid' : Nat) (q : Pending), st1.pendings[pid']? = some q →
      pid' ≠ st.pendings.length → DOk q := by
    intro pid' q hq hpp
    exact hwd pid' q (hmeminv pid' q hq hpp)
  constructor
  · intro hnz
    refine ⟨hcore, ?_⟩
    intro pid' q hq
    by_cases hpp : pid' = st.pendings.length
    · subst hpp
      rw [hnew] at hq
      cases hq
      show (0 : Nat) = if (0 : Nat) = scan.2.1 then 1 else 0
      rw [if_neg (fun h => hnz h.symm)]
    · exact hdokold pid' q hq hpp
  · intro hz
    refine ⟨⟨hcore, hdokold, ?_⟩, ?_⟩
    · intro q hq
      rw [hnew] at hq
      cases hq
      exact ⟨rfl, hz.symm⟩
    · intro q hq d hdm
      rw [hnew] at hq
      cases hq
      rw [hawreg]
      have hdm' : d ∈ D := hdm
      obtain ⟨j, hj⟩ := List.mem_iff_getElem?.mp hdm'
      rcases s6 j d hj with h | ⟨l, hl, hcb⟩
      · exact h
      · exfalso
        have hz2 : pendingCbCount scan.2.2 st.pendings.length = 0 := by
          rw [s3, hawzero, hz]
        have := countCbsIn_eq_zero.mp
          (pendingCbCount_eq_zero.mp hz2 (d, l) (lookupA_mem hl)) _ hcb
        exact this rfl

theorem pendStable_append {st st1 : EngineState} {x : Pending}
    (h : st1.pendings = st.pendings ++ [x]) : PendStable st st1 := by
  intro pid p hp
  refine ⟨p, ?_, rfl, rfl, rfl, rfl⟩
  rw [h, List.getElem?_append]
  rw [if_pos (List.getElem?_eq_some.mp hp).1]
  exact hp

/-- `whenDependentTypesAreResolved` preserves the resolver invariant. -/
theorem wdtar_WFI (fuel : Nat) (st st' : EngineState) (T D : List Int)
    (f : List (Option RType) → Except Err (List RType))
    (h : whenDependentTypesAreResolvedF fuel st T D f = (st', none)) (hw : WFI st []) :
    WFI st' [] := by
  have hprep := wdtar_prep st T D f hw _ rfl _ rfl
  simp only [whenDependentTypesAreResolvedF] at h
  by_cases hz : (wdtarScan st.registeredTypes st.pendings.length D 0
      st.awaitingDependencies).2.1 = 0
  · rw [if_pos hz] at h
    exact (cascade_WFI fuel).2.2.2.1 _ st' st.pendings.length [] h
      (hprep.2 hz).1 (hprep.2 hz).2
  · rw [if_neg hz] at h
    injection h with h1 h2
    rw [← h1]
    exact hprep.1 hz

/-- `whenDependentTypesAreResolved` keeps all existing pending records. -/
theorem wdtar_pendStable (fuel : Nat) (st st' : EngineState) (T D : List Int)
    (f : List (Option RType) → Except Err (List RType))
    (h : whenDependentTypesAreResolvedF fuel st T D f = (st', none)) :
    PendStable st st' := by
  simp only [whenDependentTypesAreResolvedF] at h
  by_cases hz : (wdtarScan st.registeredTypes st.pendings.length D 0
      st.awaitingDependencies).2.1 = 0
  · rw [if_pos hz] at h
    have hstab := (cascade_pendStable fuel).2.2.2.1 { st with typeDependencies := T.foldl (fun m t => insertA m t D) st.typeDependencies, awaitingDependencies := (wdtarScan st.registeredTypes st.pendings.length D 0 st.awaitingDependencies).2.2, pendings := st.pendings ++ [{ myTypes := T, deps := D, conv := (wdtarScan st.registeredTypes st.pendings.length D 0 st.awaitingDependencies).1, registered := 0, unregCount := (wdtarScan st.registeredTypes st.pendings.length D 0 st.awaitingDependencies).2.1, produce := f, invoked := 0, allInvocationsAllReg := true }] } st.pendings.length
    rw [h] at hstab
    refine pendStable_trans ?_ hstab
    exact pendStable_append rfl
  · rw [if_neg hz] at h
    injection h with h1 h2
    rw [← h1]
    exact pendStable_append rfl

/-- The resolve call creates its pending record at index
`st.pendings.length`, carrying its arguments. -/
theorem wdtar_creates (fuel : Nat) (st st' : EngineState) (T D : List Int)
    (f : List (Option RType) → Except Err (List RType))
    (h : whenDependentTypesAreResolvedF fuel st T D f = (st', none)) :
    ∃ p : Pending, st'.pendings[st.pendings.length]? = some p ∧ p.deps = D ∧
      p.myTypes = T ∧ p.produce = f := by
  simp only [whenDependentTypesAreResolvedF] at h
  have hnew : ({ st with typeDependencies := T.foldl (fun m t => insertA m t D) st.typeDependencies, awaitingDependencies := (wdtarScan st.registeredTypes st.pendings.length D 0 st.awaitingDependencies).2.2, pendings := st.pendings ++ [{ myTypes := T, deps := D, conv := (wdtarScan st.registeredTypes st.pendings.length D 0 st.awaitingDependencies).1, registered := 0, unregCount := (wdtarScan st.registeredTypes st.pendings.length D 0 st.awaitingDependencies).2.1, produce := f, invoked := 0, allInvocationsAllReg := true }] } : EngineState).pendings[st.pendings.length]? = some { myTypes := T, deps := D, conv := (wdtarScan st.registeredTypes st.pendings.length D 0 st.awaitingDependencies).1, registered := 0, unregCount := (wdtarScan st.registeredTypes st.pendings.length D 0 st.awaitingDependencies).2.1, produce := f, invoked := 0, allInvocationsAllReg := true } :=
    List.getElem?_concat_length _ _
  by_cases hz : (wdtarScan st.registeredTypes st.pendings.length D 0
      st.awaitingDependencies).2.1 = 0
  · rw [if_pos hz] at h
    obtain ⟨p', hp', d1, d2, _, d4⟩ := (cascade_pendStable fuel).2.2.2.1 _
      st.pendings.length _ _ hnew
    rw [h] at hp'
    exact ⟨p', hp', d1.trans rfl, d2.trans rfl, d4.trans rfl⟩
  · rw [if_neg hz] at h
    injection h with h1 h2
    rw [← h1]
    exact ⟨_, hnew, rfl, rfl, rfl⟩

/-- The empty engine satisfies the resolver invariant. -/
theorem WFI_empty : WFI emptyEngine [] := by
  refine ⟨⟨?_, ?_, ?_, ?_, ?_, ?_⟩, ?_⟩
  · simp [keysNodup, emptyEngine]
  · intro d l hl
    simp [emptyEngine, lookupA] at hl
  · intro cb hcb
    simp at hcb
  · intro pid p hp
    simp [emptyEngine] at hp
  · intro pid p hp
    simp [emptyEngine] at hp
  · intro pid p hp
    simp [emptyEngine] at hp
  · intro pid p hp
    simp [emptyEngine] at hp

theorem runOps_WFI (fuel : Nat) :
    ∀ (ops : List Op) (st st' : EngineState), runOps fuel st ops = (st', none) →
      WFI st [] → WFI st' [] := by
  intro ops
  induction ops with
  | nil =>
    intro st st' h hw
    simp [runOps] at h
    rw [← h]
    exact hw
  | cons op rest ih =>
    intro st st' h hw
    cases hop : runOp fuel st op with
    | mk stm e =>
      cases e with
      | none =>
        simp only [runOps, hop] at h
        refine ih stm st' h ?_
        cases op with
        | register r t o => exact (cascade_WFI fuel).1 st stm r t o [] hop hw
        | resolve T D f => exact wdtar_WFI fuel st stm T D f hop hw
      | some e0 =>
        simp only [runOps, hop] at h
        simp at h

theorem runOps_pendStable (fuel : Nat) :
    ∀ (ops : List Op) (st st' : EngineState), runOps fuel st ops = (st', none) →
      PendStable st st' := by
  intro ops
  induction ops with
  | nil =>
    intro st st' h
    simp [runOps] at h
    rw [← h]
    exact pendStable_refl st
  | cons op rest ih =>
    intro st st' h
    cases hop : runOp fuel st op with
    | mk stm e =>
      cases e with
      | none =>
        simp only [runOps, hop] at h
        refine pendStable_trans ?_ (ih stm st' h)
        cases op with
        | register r t o =>
          have hop2 : registerTypeF fuel st r t o = (stm, none) := hop
          have := (cascade_pendStable fuel).1 st r t o
          rw [hop2] at this
          exact this
        | resolve T D f => exact wdtar_pendStable fuel st stm T D f hop
      | some e0 =>
        simp only [runOps, hop] at h
        simp at h

theorem runOps_append (fuel : Nat) :
    ∀ (a b : List Op) (st st' : EngineState),
      runOps fuel st (a ++ b) = (st', none) →
      ∃ stm, runOps fuel st a = (stm, none) ∧ runOps fuel stm b = (st', none) := by
  intro a
  induction a with
  | nil =>
    intro b st st' h
    exact ⟨st, rfl, by simpa using h⟩
  | cons op rest ih =>
    intro b st st' h
    cases hop : runOp fuel st op with
    | mk stm e =>
      cases e with
      | none =>
        rw [List.cons_append] at h
        simp only [runOps, hop] at h
        obtain ⟨stm2, h1, h2⟩ := ih b stm st' h
        refine ⟨stm2, ?_, h2⟩
        simp only [runOps, hop]
        exact h1
      | some e0 =>
        rw [List.cons_append] at h
        simp only [runOps, hop] at h
        simp at h

/-! ## Claim C3 -/

/-- C3: for every `whenDependentTypesAreResolved(T, D, f)` call of a
successful run: if every id in `D` is registered by the end of the run,
then `f` (the call's `getTypeConverters`) was invoked exactly once and at
every invocation every id in `D` had a registered type; if some id in `D`
is never registered, `f` was never invoked. -/
theorem C3_whenDependentTypesAreResolved (fuel : Nat) (pre post : List Op)
    (T D : List Int) (f : List (Option RType) → Except Err (List RType))
    (st : EngineState)
    (h : runOps fuel emptyEngine (pre ++ Op.resolve T D f :: post) = (st, none)) :
    ∃ p : Pending,
      st.pendings[(runOps fuel emptyEngine pre).1.pendings.length]? = some p
      ∧ p.deps = D ∧ p.myTypes = T ∧ p.produce = f
      ∧ ((∀ d ∈ D, lookupA st.registeredTypes d ≠ none) →
          p.invoked = 1 ∧ p.allInvocationsAllReg = true)
      ∧ ((∃ d ∈ D, lookupA st.registeredTypes d = none) → p.invoked = 0) := by
  obtain ⟨st₀, h0, h1⟩ := runOps_append fuel pre (Op.resolve T D f :: post) emptyEngine st h
  rw [h0]
  cases hop : runOp fuel st₀ (Op.resolve T D f) with
  | mk st₁ e =>
    cases e with
    | some e0 =>
      rw [runOps, hop] at h1
      simp at h1
    | none =>
      simp only [runOps, hop] at h1
      have hwfi0 : WFI st₀ [] := runOps_WFI fuel pre emptyEngine st₀ h0 WFI_empty
      have hres : whenDependentTypesAreResolvedF fuel st₀ T D f = (st₁, none) := hop
      have hwfi1 : WFI st₁ [] := wdtar_WFI fuel st₀ st₁ T D f hres hwfi0
      have hwfi : WFI st [] := runOps_WFI fuel post st₁ st h1 hwfi1
      obtain ⟨p₁, hp₁, d1, d2, d3⟩ := wdtar_creates fuel st₀ st₁ T D f hres
      obtain ⟨p, hp, e1, e2, _, e4⟩ := runOps_pendStable fuel post st₁ st h1 _ p₁ hp₁
      have hdeps : p.deps = D := e1.trans d1
      refine ⟨p, hp, hdeps, e2.trans d2, e4.trans d3, ?_, ?_⟩
      · intro hall
        obtain ⟨hc, hdok⟩ := hwfi
        have hzero : pendingCbCount st.awaitingDependencies st₀.pendings.length = 0 := by
          refine pendingCbCount_eq_zero.mpr ?_
          intro en he
          refine countCbsIn_eq_zero.mpr ?_
          intro cb hcb hpid
          have hle : lookupA st.awaitingDependencies en.1 = some en.2 :=
            lookupA_of_mem_nodup hc.keys he
          obtain ⟨hrn, q, hq, hdep⟩ := hc.aw en.1 en.2 hle cb hcb
          rw [hpid] at hq
          rw [hp] at hq
          cases hq
          have hdm : en.1 ∈ D := by
            rw [← hdeps]
            exact List.mem_iff_getElem?.mpr ⟨cb.idx, hdep⟩
          exact (hall en.1 hdm) hrn
        have hcnt := hc.cnt st₀.pendings.length p hp
        have hL : countCbsIn [] st₀.pendings.length = 0 := by simp [countCbsIn]
        rw [hzero, hL] at hcnt
        have hreg : p.registered = p.unregCount := by omega
        have hdk := hdok st₀.pendings.length p hp
        rw [DOk, hreg, if_pos rfl] at hdk
        exact ⟨hdk, hc.ginv st₀.pendings.length p hp⟩
      · intro hex
        obtain ⟨d, hdm, hdnone⟩ := hex
        obtain ⟨hc, hdok⟩ := hwfi
        have hdk := hdok st₀.pendings.length p hp
        rw [DOk] at hdk
        by_cases hreg : p.registered = p.unregCount
        · exfalso
          have hcnt := hc.cnt st₀.pendings.length p hp
          have hL : countCbsIn [] st₀.pendings.length = 0 := by simp [countCbsIn]
          rw [hL] at hcnt
          have hzero : pendingCbCount st.awaitingDependencies st₀.pendings.length = 0 := by
            omega
          obtain ⟨i, hi⟩ := List.mem_iff_getElem?.mp
            (show d ∈ p.deps by rw [hdeps]; exact hdm)
          refine hc.frontier st₀.pendings.length p hp i d hi ?_ (by simp) hdnone
          intro d' l hdl hmem
          have := countCbsIn_eq_zero.mp
            (pendingCbCount_eq_zero.mp hzero (d', l) (lookupA_mem hdl)) _ hmem
          exact this rfl
        · rw [if_neg hreg] at hdk
          exact hdk

/-- Witness for C3 at scenario S3's shape: a resolve call whose single
dependency 7 is registered afterwards; its `getTypeConverters` ran exactly
once, with 7 registered at that moment. -/
theorem C3_whenDependentTypesAreResolved_witness :
    stC.pendings[pidC]?.map Pending.invoked = some 1
    ∧ stC.pendings[pidC]?.map Pending.allInvocationsAllReg = some true := by
  obtain ⟨p, hp, hd, hm, hf, hinv, hnone⟩ :=
    C3_whenDependentTypesAreResolved 4 opsPre opsPost [] [7] produceNothing stC rfl
  have hall : ∀ d ∈ ([7] : List Int), lookupA stC.registeredTypes d ≠ none := by
    intro d hd2
    rw [List.mem_singleton] at hd2
    subst hd2
    rw [show lookupA stC.registeredTypes 7 = some (sampleType 7 "intT") from rfl]
    simp
  obtain ⟨h1, h2⟩ := hinv hall
  rw [show stC.pendings[pidC]? = some p from hp]
  simp [h1, h2]

/-! ## Claim C9 -/

/-- C9: for a boolean codec registered with `trueValue = 1` and
`falseValue = 0`: decoding yields `true` for every non-zero wire word
(in particular 42) and `false` for 0; encoding returns the registered
sentinel word for each boolean; and decode ∘ encode is the identity on
booleans. -/
theorem C9_bool_codec (bt : BoolType) (hT : bt.trueVal = 1) (hF : bt.falseVal = 0) :
    (∀ w : Nat, w < 2 ^ 64 → w ≠ 0 → bt.fromWireType w = .bool true)
    ∧ bt.fromWireType 42 = .bool true
    ∧ bt.fromWireType 0 = .bool false
    ∧ bt.toWireType (.bool true) = .ok (encodeI32 bt.trueVal)
    ∧ bt.toWireType (.bool false) = .ok (encodeI32 bt.falseVal)
    ∧ (∀ b : Bool, ∀ w : Nat, bt.toWireType (.bool b) = .ok w →
        bt.fromWireType w = .bool b) := by
  refine ⟨?_, ?_, ?_, ?_, ?_, ?_⟩
  · intro w _ hw
    simp [BoolType.fromWireType, Nat.pos_of_ne_zero hw]
  · simp [BoolType.fromWireType]
  · simp [BoolType.fromWireType]
  · simp [BoolType.toWireType]
  · simp [BoolType.toWireType]
  · intro b w hbw
    cases b with
    | false =>
      simp [BoolType.toWireType, hF] at hbw
      simp [BoolType.fromWireType, ← hbw, encodeI32]
    | true =>
      simp [BoolType.toWireType, hT] at hbw
      simp [BoolType.fromWireType, ← hbw, encodeI32]

/-- Witness for C9 at the concrete registration of scenario S1
(`size = 1`, `trueValue = 1`, `falseValue = 0`). -/
theorem C9_bool_codec_witness :
    (BoolType.mk "bool" 1 1 0).fromWireType 42 = .bool true
    ∧ (BoolType.mk "bool" 1 1 0).toWireType (.bool true) = .ok 1 := by
  have h := C9_bool_codec (BoolType.mk "bool" 1 1 0) rfl rfl
  exact ⟨h.2.1, by rw [h.2.2.2.1]; rfl⟩

/-! ## Claims C4 and C5 -/

/-- C4 (amended): `registerType` rejects raw type id 0 (with the
positive-typeid error) and rejects an already-present raw id when
`ignoreDuplicateRegistrations` is not set; in both failing cases the engine
state is returned unchanged.  (The claim's "fails for every rawId ≤ 0" does
not hold: only 0 is rejected — see the counterexample at rawId = −1.) -/
theorem C4_registerType_failures (fuel : Nat) (st : EngineState) (r : Int) (t : RType)
    (opts : Option RegisterTypeOptions) :
    (r = 0 → registerTypeF (fuel + 1) st r t opts = (st, some (.zeroTypeId t.name)))
    ∧ (∀ u : RType, r ≠ 0 → lookupA st.registeredTypes r = some u →
        (opts = none ∨ opts = some ⟨false⟩) →
        registerTypeF (fuel + 1) st r t opts = (st, some (.registeredTwice t.name))) := by
  constructor
  · intro hr
    simp [registerTypeF, hr]
  · intro u hr hlook hopts
    rcases hopts with h | h <;> subst h <;> simp [registerTypeF, hr, hlook]

/-- Witness for C4 at raw id 0 and at a duplicate raw id 5. -/
theorem C4_registerType_failures_witness :
    registerTypeF 1 emptyEngine 0 (sampleType 0 "T0") none
      = (emptyEngine, some (.zeroTypeId "T0"))
    ∧ registerTypeF 1 (⟨[], [(5, sampleType 5 "T5")], [], [], []⟩ : EngineState) 5
        (sampleType 5 "T5b") none
      = (⟨[], [(5, sampleType 5 "T5")], [], [], []⟩, some (.registeredTwice "T5b")) := by
  constructor
  · exact (C4_registerType_failures 0 emptyEngine 0 (sampleType 0 "T0") none).1 rfl
  · exact (C4_registerType_failures 0 _ 5 (sampleType 5 "T5b") none).2 (sampleType 5 "T5")
      (by decide) rfl (Or.inl rfl)

/-- C4 counterexample: the claim asserts registration fails for every
`rawId ≤ 0`, but the code only checks `rawType == 0`; registering at the
negative id −1 succeeds and stores the type. -/
theorem C4_counterexample :
    (registerTypeF 1 emptyEngine (-1) (sampleType (-1) "negType") none).2 = none
    ∧ lookupA (registerTypeF 1 emptyEngine (-1) (sampleType (-1) "negType") none).1.registeredTypes
        (-1) = some (sampleType (-1) "negType") := by
  constructor <;> rfl

/-- C5: after a successful `registerType(r, t, _)` (with no options, as the
resolver calls it), looking up `r` yields `t`; re-registering `r` with
`ignoreDuplicateRegistrations = false` fails; re-registering with `true`
succeeds and returns the engine state completely unchanged, so the existing
mapping stays at `t` and no awaiting-dependency callback is re-run. -/
theorem C5_register_then_relookup (fuel : Nat) (st st' : EngineState) (r : Int) (t t' : RType)
    (hsucc : registerTypeF (fuel + 1) st r t none = (st', none)) :
    lookupA st'.registeredTypes r = some t
    ∧ registerTypeF (fuel + 1) st' r t' (some ⟨false⟩)
        = (st', some (.registeredTwice t'.name))
    ∧ registerTypeF (fuel + 1) st' r t' (some ⟨true⟩) = (st', none) := by
  have hr : r ≠ 0 := by
    intro hr0
    rw [hr0] at hsucc
    simp [registerTypeF] at hsucc
  have hbind : lookupA st'.registeredTypes r = some t := by
    cases hlook : lookupA st.registeredTypes r with
    | some u => simp [registerTypeF, hr, hlook] at hsucc
    | none =>
      cases haw : lookupA st.awaitingDependencies r with
      | none =>
        have hred : registerTypeF (fuel + 1) st r t none
            = ({ st with registeredTypes := insertA st.registeredTypes r t,
                         typeDependencies := eraseA st.typeDependencies r }, none) := by
          simp [registerTypeF, hr, hlook, haw]
        rw [hred] at hsucc
        injection hsucc with h1 h2
        rw [← h1]
        exact lookupA_insertA_self _ _ _
      | some cbs =>
        have hred : registerTypeF (fuel + 1) st r t none
            = runCallbacks fuel
                { st with registeredTypes := insertA st.registeredTypes r t,
                          typeDependencies := eraseA st.typeDependencies r,
                          awaitingDependencies := eraseA st.awaitingDependencies r } cbs := by
          simp [registerTypeF, hr, hlook, haw]
        have hb : lookupA (insertA st.registeredTypes r t) r = some t :=
          lookupA_insertA_self _ _ _
        have hp := (cascade_preservesReg fuel).2.1
          { st with registeredTypes := insertA st.registeredTypes r t,
                    typeDependencies := eraseA st.typeDependencies r,
                    awaitingDependencies := eraseA st.awaitingDependencies r } cbs r t hb
        rw [hred] at hsucc
        have h1 : (runCallbacks fuel
            { st with registeredTypes := insertA st.registeredTypes r t,
                      typeDependencies := eraseA st.typeDependencies r,
                      awaitingDependencies := eraseA st.awaitingDependencies r } cbs).1 = st' := by
          rw [hsucc]
        rw [← h1]
        exact hp
  refine ⟨hbind, ?_, ?_⟩
  · simp [registerTypeF, hr, hbind]
  · simp [registerTypeF, hr, hbind]

/-- Witness for C5: register raw id 5 into the empty engine, then re-look
it up and re-register both ways. -/
theorem C5_register_then_relookup_witness :
    lookupA (⟨[], [((5 : Int), sampleType 5 "A")], [], [], []⟩ :
        EngineState).registeredTypes 5 = some (sampleType 5 "A")
    ∧ registerTypeF 1 (⟨[], [(5, sampleType 5 "A")], [], [], []⟩ : EngineState) 5
        (sampleType 5 "B") (some ⟨false⟩)
      = (⟨[], [(5, sampleType 5 "A")], [], [], []⟩, some (.registeredTwice "B"))
    ∧ registerTypeF 1 (⟨[], [(5, sampleType 5 "A")], [], [], []⟩ : EngineState) 5
        (sampleType 5 "B") (some ⟨true⟩)
      = (⟨[], [(5, sampleType 5 "A")], [], [], []⟩, none) :=
  C5_register_then_relookup 0 emptyEngine _ 5 (sampleType 5 "A") (sampleType 5 "B") rfl


/-! ## Claim C1 -/

/-- C1: refuted by the code (code bug).  In scenario S2's engine `stAdd`
(`add` exposed at arities 2 and 3), the dispatcher does select the overload
whose arity equals the argument count, but the source's line 179 calls it
without spreading the variadic slice: the chosen overload receives the
single `[]any` argument (first conjunct) instead of exactly the original
arguments (second conjunct, the same overload invoked directly); and the
arity-miss error's "expects one of" list is built with `make([]string, n)`
followed by appends, so it starts with one empty string per table entry
(third conjunct). -/
theorem C1_overload_dispatch_bug :
    CallFunctionM okExport noTypeName 4 stAdd "add" [Value.num 1, Value.num 2]
      = .ok (some (.arr [.str "two", .arr [.num 1, .num 2]]))
    ∧ callFnCode okExport noTypeName 4 stAdd fnTwo .null [.num 1, .num 2]
      = .ok (some (.arr [.str "two", .num 1, .num 2]))
    ∧ CallFunctionM okExport noTypeName 4 stAdd "add" [Value.num 1]
      = .error (.callError "add" (.invalidArgCount "add" 1 ["", "", "2", "3"])) :=
  ⟨rfl, rfl, rfl⟩

/-! ## Claim C2 -/

theorem runDestructorsM_ok (rE : String → List Nat → Except Err Unit) :
    ∀ ds ran, runDestructorsM rE ds = (ran, none) → ran = ds := by
  intro ds
  induction ds with
  | nil =>
    intro ran h
    exact (congrArg Prod.fst h).symm
  | cons d rest ih =>
    intro ran h
    simp only [runDestructorsM] at h
    cases hx : rE d.function d.args with
    | error e => rw [hx] at h; simp at h
    | ok u =>
      rw [hx] at h
      have h1 := congrArg Prod.fst h
      have h2 := congrArg Prod.snd h
      dsimp only at h1 h2
      have heq : runDestructorsM rE rest = ((runDestructorsM rE rest).1, none) := by
        rw [← h2]
      have h3 := ih _ heq
      rw [← h1, h3]

/-- C2, amended: for a crafted invoker whose signature uses the dynamic
destructor stack, a successful call runs exactly the destructors scheduled
while encoding `this` and the parameters, once each in order; but when
encoding an argument fails, the invoker returns the error with an empty run
trace — the already-scheduled destructors are NOT run (the Go code returns
before `runDestructors`). -/
theorem C2_destructor_discipline (runExport : String → List Nat → Except Err Unit)
    (sp : InvokerSpec) (this : Value) (arguments : List Value) :
    (∀ (v : Option Value) (ran sch : List Dtor) (retT : RType) (cp0 : Option RType)
        (tw : Option Nat) (ds0 : List Dtor) (ws : List Nat) (ds1 : List Dtor),
      sp.argTypes[0]? = some (some retT) →
      sp.argTypes[1]? = some cp0 →
      arguments.length = sp.argTypes.length - 2 →
      needsDestructorStackB sp = true →
      encodeThisM sp cp0 this = .ok (tw, ds0) →
      encodeArgLoop (sp.argTypes.drop 2) arguments 0 = (.ok ws, ds1) →
      invokeModel runExport sp this arguments = (.ok v, ran, sch) →
      ran = ds0 ++ ds1 ∧ sch = ds0 ++ ds1)
    ∧ (∀ (e : Err) (retT : RType) (cp0 : Option RType) (tw : Option Nat)
        (ds0 ds1 : List Dtor),
      sp.argTypes[0]? = some (some retT) →
      sp.argTypes[1]? = some cp0 →
      arguments.length = sp.argTypes.length - 2 →
      encodeThisM sp cp0 this = .ok (tw, ds0) →
      encodeArgLoop (sp.argTypes.drop 2) arguments 0 = (.error e, ds1) →
      invokeModel runExport sp this arguments = (.error e, [], ds0 ++ ds1)) := by
  constructor
  · intro v ran sch retT cp0 tw ds0 ws ds1 h0 h1 hlen hds hthis henc h
    simp only [invokeModel, h0, h1] at h
    rw [if_neg (fun hc => hc hlen)] at h
    rw [hthis] at h
    dsimp only at h
    rw [henc] at h
    dsimp only at h
    split at h
    · simp at h
    · simp only [hds, if_true] at h
      cases hR : runDestructorsM runExport (ds0 ++ ds1) with
      | mk ranD eD =>
        rw [hR] at h
        cases eD with
        | some e2 => simp at h
        | none =>
          dsimp only at h
          have hranD := runDestructorsM_ok runExport (ds0 ++ ds1) ranD hR
          rename_i res hI
          by_cases hv : (retT.name != "void") = true
          · rw [if_pos hv] at h
            cases hr0 : res[0]? with
            | none => rw [hr0] at h; simp at h
            | some r0 =>
              rw [hr0] at h
              dsimp only at h
              cases hF : retT.fromWireType r0 with
              | error e3 => rw [hF] at h; simp at h
              | ok rv =>
                rw [hF] at h
                have ha := congrArg (fun p => p.2.1) h
                have hb := congrArg (fun p => p.2.2) h
                dsimp only at ha hb
                exact ⟨by rw [← ha, hranD], hb.symm⟩
          · rw [if_neg hv] at h
            have ha := congrArg (fun p => p.2.1) h
            have hb := congrArg (fun p => p.2.2) h
            dsimp only at ha hb
            exact ⟨by rw [← ha, hranD], hb.symm⟩
  · intro e retT cp0 tw ds0 ds1 h0 h1 hlen hthis henc
    simp only [invokeModel, h0, h1]
    rw [if_neg (fun hc => hc hlen)]
    rw [hthis]
    dsimp only
    rw [henc]

/-- Counterexample to C2 as stated: encoding the second parameter of `f`
fails after the first parameter already scheduled a destructor, and the
invoker returns the error with an empty run trace — the scheduled
destructor (third component) is not run. -/
theorem C2_encode_failure_counterexample :
    invokeModel okExport spC2 Value.null [Value.num 5, Value.str "x"]
      = (.error (.encodeArg 1 "p1" (.msg "value must be of type int")), [],
         [⟨"freep0", [encodeI32 5]⟩]) :=
  rfl

/-- Witness for C2 at the concrete invoker `spC2`: the successful call runs
exactly the two scheduled destructors, and an encode failure surfaces the
error with no destructor run. -/
theorem C2_destructor_discipline_witness :
    ([⟨"freep0", [encodeI32 5]⟩, ⟨"freep1", [encodeI32 6]⟩] : List Dtor)
        = [] ++ [⟨"freep0", [encodeI32 5]⟩, ⟨"freep1", [encodeI32 6]⟩]
    ∧ invokeModel okExport spC2 Value.null [Value.num 5, Value.str "y"]
        = (.error (.encodeArg 1 "p1" (.msg "value must be of type int")), [],
           [] ++ [⟨"freep0", [encodeI32 5]⟩]) := by
  constructor
  · exact ((C2_destructor_discipline okExport spC2 Value.null
      [Value.num 5, Value.num 6]).1 none
      [⟨"freep0", [encodeI32 5]⟩, ⟨"freep1", [encodeI32 6]⟩]
      [⟨"freep0", [encodeI32 5]⟩, ⟨"freep1", [encodeI32 6]⟩]
      voidRet none none [] [encodeI32 5, encodeI32 6]
      [⟨"freep0", [encodeI32 5]⟩, ⟨"freep1", [encodeI32 6]⟩]
      rfl rfl rfl rfl rfl rfl rfl).1
  · exact (C2_destructor_discipline okExport spC2 Value.null
      [Value.num 5, Value.str "y"]).2
      (.encodeArg 1 "p1" (.msg "value must be of type int"))
      voidRet none none [] [⟨"freep0", [encodeI32 5]⟩]
      rfl rfl rfl rfl rfl

/-! ## Claim C6 -/

/-- C6: refuted by the code (code bug).  In an engine where unregistered
type 8 depends on unregistered type 7, the unbound-type error built for a
symbol requiring type 8 lists NO names: the traversal's dependency branch
collects its children's missing ids and then returns nil (part_005 line
509), discarding them — even though visiting type 7 directly does report
it (second conjunct). -/
theorem C6_transitive_unbound_names_bug :
    createUnboundTypeErrorF 4 stDep noTypeName "Cannot call foo due to unbound types" [8]
      = .unboundTypes "Cannot call foo due to unbound types" []
    ∧ checkDeps 4 stDep 7 [] = some ([7], [7]) :=
  ⟨rfl, rfl⟩

/-! ## Claim C7 -/

/-- C7, amended: `replacePublicSymbol` fails on a missing name; with an
overload table and `numArguments > 0` it replaces the arity-keyed slot; in
every other case — including `numArguments = 0` with an overload table
present — it replaces the top-level entry (discarding the table). -/
theorem C7_replacePublicSymbol (syms : List (String × PublicSymbol)) (name : String)
    (value : FnCode) (numArguments : Int) :
    (lookupA syms name = none →
      replacePublicSymbolM syms name value numArguments
        = .error (.replaceNonexistent name))
    ∧ (∀ ps tbl, lookupA syms name = some ps → ps.overloadTable = some tbl →
        0 < numArguments →
        replacePublicSymbolM syms name value numArguments
          = .ok (insertA syms name (.mk ps.argCount
              (some (insertA tbl numArguments (.mk numArguments none value))) ps.fn)))
    ∧ (∀ ps, lookupA syms name = some ps →
        (ps.overloadTable = none ∨ numArguments ≤ 0) →
        replacePublicSymbolM syms name value numArguments
          = .ok (insertA syms name (.mk numArguments none value))) := by
  refine ⟨?_, ?_, ?_⟩
  · intro h
    simp [replacePublicSymbolM, h]
  · intro ps tbl h ht hn
    simp only [replacePublicSymbolM, h]
    rw [ht]
    dsimp only
    rw [if_pos hn]
  · intro ps h hor
    simp only [replacePublicSymbolM, h]
    cases htb : ps.overloadTable with
    | none => rfl
    | some tbl =>
      dsimp only
      rcases hor with ht | hn
      · rw [htb] at ht; cases ht
      · rw [if_neg (by omega)]

/-- Counterexample to C7 as stated: replacing `f` (which has an overload
table) at `argCount = 0` does not write table slot 0 — it replaces the
top-level entry and the overload table is gone. -/
theorem C7_argcount_zero_counterexample :
    replacePublicSymbolM syms7 "f" fnThree 0
      = .ok [("f", PublicSymbol.mk 0 none fnThree)] :=
  rfl

/-- Witness for C7: a missing name fails; arity 3 with a table goes into
the table; arity 0 with a table replaces the top-level entry. -/
theorem C7_replacePublicSymbol_witness :
    replacePublicSymbolM [] "g" fnThree 1 = .error (.replaceNonexistent "g")
    ∧ replacePublicSymbolM syms7 "f" fnThree 3
        = .ok (insertA syms7 "f" (.mk 2
            (some (insertA [(2, .mk 2 none fnTwo)] 3 (.mk 3 none fnThree)))
            (.dispatcher "f" "f")))
    ∧ replacePublicSymbolM syms7 "f" fnThree 0
        = .ok (insertA syms7 "f" (.mk 0 none fnThree)) := by
  refine ⟨(C7_replacePublicSymbol [] "g" fnThree 1).1 rfl, ?_, ?_⟩
  · exact (C7_replacePublicSymbol syms7 "f" fnThree 3).2.1
      (.mk 2 (some [(2, .mk 2 none fnTwo)]) (.dispatcher "f" "f"))
      [(2, .mk 2 none fnTwo)] rfl rfl (by decide)
  · exact (C7_replacePublicSymbol syms7 "f" fnThree 0).2.2
      (.mk 2 (some [(2, .mk 2 none fnTwo)]) (.dispatcher "f" "f"))
      rfl (Or.inr (by decide))

/-! ## Claim C8 -/

/-- C8: refuted by the code (code bug).  When the raw type id is already
registered, `registerType` does return the duplicate error (third and
fourth conjuncts), but the `_embind_register_bool` and
`_embind_register_integer` import bodies assign it to `err` and never check
it, so both imports complete with no error and guest initialization
continues silently (first and second conjuncts). -/
theorem C8_registration_error_dropped (fuel : Nat) (st : EngineState) (r : Int)
    (t : RType) (name iname : String) (size tv fv isize mn mx : Int)
    (h : lookupA st.registeredTypes r = some t) (hr : r ≠ 0) :
    embindRegisterBool (fuel + 1) st r name size tv fv = (st, none)
    ∧ embindRegisterInteger (fuel + 1) st r iname isize mn mx = (st, none)
    ∧ registerTypeF (fuel + 1) st r (boolRType r name size tv fv) none
        = (st, some (.registeredTwice name))
    ∧ registerTypeF (fuel + 1) st r (intRType r iname isize) none
        = (st, some (.registeredTwice iname)) := by
  have hreg : ∀ t2 : RType, registerTypeF (fuel + 1) st r t2 none
      = (st, some (.registeredTwice t2.name)) := by
    intro t2
    simp [registerTypeF, hr, h]
  refine ⟨?_, ?_, hreg _, hreg _⟩
  · simp [embindRegisterBool, hreg]
  · simp [embindRegisterInteger, hreg]

/-- Witness for C8: with raw type 7 already registered, both imports return
no error while `registerType` itself reports the duplicate. -/
theorem C8_registration_error_dropped_witness :
    embindRegisterBool 1 st8 7 "boolT" 1 1 0 = (st8, none)
    ∧ embindRegisterInteger 1 st8 7 "int" 4 0 0 = (st8, none)
    ∧ registerTypeF 1 st8 7 (boolRType 7 "boolT" 1 1 0) none
        = (st8, some (.registeredTwice "boolT"))
    ∧ registerTypeF 1 st8 7 (intRType 7 "int" 4) none
        = (st8, some (.registeredTwice "int")) :=
  C8_registration_error_dropped 0 st8 7 (sampleType 7 "intT") "boolT" "int"
    1 1 0 4 0 0 rfl (by decide)

/-! ## Claim C10 -/

theorem embindRegisterEnumValue_dup (st : EnumEngine) (raw : Int) (name : String)
    (w : Nat) (v : Int) (et : EnumType) (ev : EnumValue)
    (hlook : lookupA st.enums raw = some et)
    (hdec : intFromWireType et.signed et.size w = .ok v)
    (hev : lookupA et.valuesByName name = some ev)
    (hcpp : ev.hasCppValue = true) :
    embindRegisterEnumValue st raw name w
      = (st, some (.enumValueAlreadyRegistered name et.name)) := by
  simp only [embindRegisterEnumValue, hlook]
  rw [hdec]
  dsimp only
  rw [hev]
  dsimp only
  rw [hev]
  dsimp only
  rw [if_pos hcpp]

theorem embindRegisterEnumValue_ok (st st1 : EnumEngine) (raw : Int) (name : String)
    (w : Nat) (h : embindRegisterEnumValue st raw name w = (st1, none)) :
    ∃ (et : EnumType) (ev : EnumValue),
      lookupA st1.enums raw = some et
      ∧ lookupA et.valuesByName name = some ev
      ∧ ev.hasCppValue = true := by
  simp only [embindRegisterEnumValue] at h
  cases hL : lookupA st.enums raw with
  | none => rw [hL] at h; simp at h
  | some et =>
    rw [hL] at h
    dsimp only at h
    cases hD : intFromWireType et.signed et.size w with
    | error e => rw [hD] at h; simp at h
    | ok ewv =>
      rw [hD] at h
      dsimp only at h
      cases hV : lookupA et.valuesByName name with
      | none =>
        rw [hV] at h
        dsimp only at h
        rw [lookupA_insertA_self] at h
        dsimp only at h
        rw [if_neg (by decide)] at h
        have hst := congrArg Prod.fst h
        dsimp only at hst
        subst hst
        refine ⟨_, ⟨name, true, ewv⟩, lookupA_insertA_self _ _ _, ?_, rfl⟩
        exact lookupA_insertA_self _ _ _
      | some ev0 =>
        rw [hV] at h
        dsimp only at h
        rw [hV] at h
        dsimp only at h
        cases hC : ev0.hasCppValue with
        | true => rw [if_pos hC] at h; simp at h
        | false =>
          rw [if_neg (by rw [hC]; decide)] at h
          have hst := congrArg Prod.fst h
          dsimp only at hst
          subst hst
          refine ⟨_, ⟨ev0.name, true, ewv⟩, lookupA_insertA_self _ _ _, ?_, rfl⟩
          exact lookupA_insertA_self _ _ _

/-- C10: after a successful `_embind_register_enum_value` for (raw, name),
a second registration of the same name on the same enum — with any wire
word its integer helper can decode — fails with "was already registered"
and leaves the engine (both value maps) unchanged. -/
theorem C10_duplicate_enum_value (st st1 : EnumEngine) (raw : Int) (name : String)
    (w w2 : Nat) (v2 : Int)
    (h : embindRegisterEnumValue st raw name w = (st1, none)) :
    ∃ et : EnumType, lookupA st1.enums raw = some et
      ∧ (intFromWireType et.signed et.size w2 = .ok v2 →
          embindRegisterEnumValue st1 raw name w2
            = (st1, some (.enumValueAlreadyRegistered name et.name))) := by
  obtain ⟨et, ev, hlook, hev, hcpp⟩ := embindRegisterEnumValue_ok st st1 raw name w h
  exact ⟨et, hlook, fun hdec =>
    embindRegisterEnumValue_dup st1 raw name w2 v2 et ev hlook hdec hev hcpp⟩

/-- Witness for C10: register `GREEN = 1` on enum `Color`, then register
`GREEN` again; the second call fails "was already registered" and returns
the engine unchanged. -/
theorem C10_duplicate_enum_value_witness :
    embindRegisterEnumValue stE1 3 "GREEN" 1
      = (stE1, some (.enumValueAlreadyRegistered "GREEN" "Color")) := by
  obtain ⟨et, h1, h2⟩ :=
    C10_duplicate_enum_value stE0 stE1 3 "GREEN" 1 1 1 rfl
  have h1c : lookupA stE1.enums 3
      = some ({ name := "Color", signed := true, size := 4,
                valuesByName := [("GREEN", ⟨"GREEN", true, 1⟩)],
                valuesByCppValue := [(1, ⟨"GREEN", true, 1⟩)] } : EnumType) := rfl
  have het : et = { name := "Color", signed := true, size := 4,
                    valuesByName := [("GREEN", ⟨"GREEN", true, 1⟩)],
                    valuesByCppValue := [(1, ⟨"GREEN", true, 1⟩)] } := by
    have := h1.symm.trans h1c
    exact Option.some.inj this
  subst het
  exact h2 rfl

end Embind
